import Mathlib

/-!
# Director response handling of the OSDF client (`director.go`, package `stashcp`)

A shallow embedding of `HeaderParser`, `GetCachesFromDirectorResponse`,
`CreateNSFromDirectorResp` and `NewTransferDetailsUsingDirector`, followed by the
properties established about them.

Conventions of the embedding:

* a Go `string` is an immutable byte sequence; it is represented by a `List Char`
  in which every `Char` stands for the byte with the same code, so that `len`,
  indexing and slicing are the list operations;
* a Go run-time panic (index or slice bounds out of range) is the `Except.error`
  outcome of a function; a Go `error` result is an `Option GoError` inside the
  returned value (`none` is `nil`);
* functions of the Go standard library are transcribed from the library
  (`strings.Split`, `strconv.Atoi`, `strconv.ParseBool`, `url.Parse`) or, for
  `sort.Slice`, taken with their documented contract;
* functions of the package that are defined in other files (`HasPort`,
  `IsProxyEnabled`, `CanDisableProxy`) are parameters.
-/

namespace Stashcp

/-! ## Go strings, panics, errors -/

/-- Go `string`: a sequence of bytes, one `Char` per byte. -/
abbrev GoString := List Char

/-- Go run-time panics raised by indexing and slicing. -/
inductive Panic where
  | indexOutOfRange (index len : Nat)
  | sliceBounds (lo hi len : Nat)
  deriving DecidableEq, Repr

/-- Go `error` values that the functions of this file can meet. -/
inductive GoError where
  | errSyntax
  | errRange
  | invalidControlCharacter
  | missingProtocolScheme
  | firstPathSegmentColon
  | escapeError
  | invalidHostError
  | missingBracketInHost
  | invalidPort
  | invalidUserinfo
  deriving DecidableEq, Repr

/-- Indexing `xs[i]`: panics when `i` is not below `len(xs)`. -/
def goIndex {α : Type} (xs : List α) (i : Nat) : Except Panic α :=
  match xs.get? i with
  | some x => .ok x
  | none => .error (.indexOutOfRange i xs.length)

/-- Slicing `s[lo:hi]` with signed bounds: panics unless `0 ≤ lo ≤ hi ≤ len(s)`. -/
def goSlice (s : GoString) (lo hi : Int) : Except Panic GoString :=
  if 0 ≤ lo ∧ lo ≤ hi ∧ hi ≤ s.length then
    .ok ((s.drop lo.toNat).take (hi.toNat - lo.toNat))
  else .error (.sliceBounds lo.toNat hi.toNat s.length)

/-- Slicing `s[lo:]`. -/
def goSliceFrom (s : GoString) (lo : Int) : Except Panic GoString :=
  goSlice s lo s.length

/-- Function `strings.Split(s, sep)` for a one-byte separator: the substrings between
the separators, `Count(s, sep) + 1` of them. -/
def stringsSplit (sep : Char) : GoString → List GoString
  | [] => [[]]
  | c :: cs =>
    if c = sep then [] :: stringsSplit sep cs
    else
      match stringsSplit sep cs with
      | [] => [[c]]
      | w :: ws => (c :: w) :: ws

/-- Function `strings.ReplaceAll(s, " ", "")`: every space byte is removed. -/
def removeSpaces (s : GoString) : GoString :=
  s.filter (fun c => c != ' ')

/-- Function `strings.HasPrefix(s, prefix)`. -/
def stringsHasPrefix (s pre : GoString) : Bool :=
  pre.isPrefixOf s

/-! ## `strconv.Atoi` and `strconv.ParseBool` -/

/-- The largest `uint64`. -/
def maxUint64 : Nat := 2 ^ 64 - 1

/-- The digit loop of `strconv.ParseUint(s, 10, 64)`; `n` is the `uint64` accumulator.
A byte that is not a decimal digit is a syntax error, also the letters, whose digit
value is not below the base, and the underscore, which only base 0 accepts. -/
def parseUintLoop : GoString → Nat → Nat × Option GoError
  | [], n => (n, none)
  | c :: cs, n =>
    if '0' ≤ c ∧ c ≤ '9' then
      let d := c.toNat - '0'.toNat
      if n ≥ maxUint64 / 10 + 1 then (maxUint64, some .errRange)
      else
        let n10 := (n * 10) % 2 ^ 64
        let n1 := (n10 + d) % 2 ^ 64
        if n1 < n10 ∨ n1 > maxUint64 then (maxUint64, some .errRange)
        else parseUintLoop cs n1
    else (0, some .errSyntax)

/-- Function `strconv.ParseUint(s, 10, 64)`. -/
def ParseUint (s : GoString) : Nat × Option GoError :=
  if s = [] then (0, some .errSyntax) else parseUintLoop s 0

/-- Function `strconv.ParseInt(s, 10, 0)` on a platform whose `int` has 64 bits. -/
def ParseInt (s : GoString) : Int × Option GoError :=
  match s with
  | [] => (0, some .errSyntax)
  | c :: cs =>
    let neg := c = '-'
    let s1 := if c = '+' ∨ c = '-' then cs else s
    let (un, err) := ParseUint s1
    if err = some .errSyntax then (0, err)
    else
      let cutoff : Nat := 2 ^ 63
      if ¬ neg ∧ un ≥ cutoff then ((cutoff : Int) - 1, some .errRange)
      else if neg ∧ un > cutoff then (-(cutoff : Int), some .errRange)
      else if neg then (-(un : Int), none) else ((un : Int), none)

/-- The digit loop of the fast path of `strconv.Atoi`: `ch -= '0'` in byte arithmetic,
a syntax error when the result exceeds 9. -/
def atoiFastLoop : GoString → Int → Option Int
  | [], n => some n
  | ch :: cs, n =>
    let d := (ch.toNat + 256 - '0'.toNat) % 256
    if d > 9 then none else atoiFastLoop cs (n * 10 + d)

/-- Function `strconv.Atoi(s)` with a 64-bit `int`: the value and the error. Strings of
1 to 18 bytes take the fast path, all others go through `ParseInt`. -/
def Atoi (s : GoString) : Int × Option GoError :=
  if 0 < s.length ∧ s.length < 19 then
    match s with
    | [] => (0, some .errSyntax)
    | c :: cs =>
      let s1 := if c = '-' ∨ c = '+' then cs else s
      if s1.length < 1 then (0, some .errSyntax)
      else
        match atoiFastLoop s1 0 with
        | none => (0, some .errSyntax)
        | some n => (if c = '-' then -n else n, none)
  else ParseInt s

/-- Function `strconv.ParseBool(str)`. -/
def ParseBool (str : GoString) : Bool × Option GoError :=
  if str ∈ ["1".toList, "t".toList, "T".toList, "true".toList, "TRUE".toList, "True".toList] then
    (true, none)
  else if str ∈ ["0".toList, "f".toList, "F".toList, "false".toList, "FALSE".toList,
      "False".toList] then
    (false, none)
  else (false, some .errSyntax)

/-! ## Go maps -/

/-- Go `map[string]string`, kept as an association list with pairwise distinct keys. -/
structure GoMap where
  entries : List (GoString × GoString)
  deriving DecidableEq, Repr

/-- The literal `map[string]string{}`. -/
def GoMap.empty : GoMap := ⟨[]⟩

/-- Assignment `m[k] = v`: the entry for `k` is created or replaced. -/
def GoMap.set (m : GoMap) (k v : GoString) : GoMap :=
  ⟨(k, v) :: m.entries.filter (fun p => p.1 != k)⟩

/-- The entry stored under `k`, when there is one. -/
def GoMap.find? (m : GoMap) (k : GoString) : Option GoString :=
  m.entries.lookup k

/-- Expression `m[k]`: the zero value `""` when `k` is not a key. -/
def GoMap.get (m : GoMap) (k : GoString) : GoString :=
  (m.find? k).getD []

/-- The key set of the map. -/
def GoMap.keys (m : GoMap) : List GoString :=
  m.entries.map Prod.fst

/-! ## `HeaderParser` -/

/-- The `for _, pair := range mapPairs` loop of `HeaderParser`. -/
def headerParserLoop : List GoString → GoMap → Except Panic GoMap
  | [], retMap => .ok retMap
  | pair :: mapPairs, retMap =>
    let pair := removeSpaces pair
    let split := stringsSplit '=' pair
    match goIndex split 0 with
    | .error p => .error p
    | .ok k =>
      match goIndex split 1 with
      | .error p => .error p
      | .ok v => headerParserLoop mapPairs (retMap.set k v)

/-- Function `HeaderParser(values)`: the pair `(retMap, err)` it returns, or the panic
it raises. -/
def HeaderParser (values : GoString) : Except Panic (GoMap × Option GoError) :=
  if values = [] then .ok (GoMap.empty, none)
  else
    match headerParserLoop (stringsSplit ',' values) GoMap.empty with
    | .error p => .error p
    | .ok retMap => .ok (retMap, none)

/-! ## `sort.Slice` -/

/-- The requirement `sort.Slice` puts on `less`: a transitive ordering in which
incomparability is transitive too, no element sorting before itself. -/
structure StrictWeakOrdering {α : Type} (less : α → α → Bool) : Prop where
  irrefl : ∀ a, less a a = false
  trans : ∀ a b c, less a b = true → less b c = true → less a c = true
  negTrans : ∀ a b c, less a b = false → less b c = false → less a c = false

/-- The documented contract of `sort.Slice(x, less)`: the slice is rearranged (a
permutation of its elements) so that no later element sorts before an earlier one.
The order of equal elements is left open: "The sort is not guaranteed to be stable". -/
structure SliceSorter where
  sort : {α : Type} → (α → α → Bool) → List α → List α
  perm : ∀ {α : Type} (less : α → α → Bool) (l : List α), (sort less l).Perm l
  sorted : ∀ {α : Type} (less : α → α → Bool) (l : List α), StrictWeakOrdering less →
    (sort less l).Pairwise (fun a b => less b a = false)

/-! ## `GetCachesFromDirectorResponse` -/

/-- Type `DirectorCache`. -/
structure DirectorCache where
  ResourceName : GoString := []
  EndpointUrl : GoString := []
  Priority : Int := 0
  AuthedReq : Bool := false
  deriving DecidableEq, Repr

/-- HTTP header fields: canonical field name and the values received for it. -/
abbrev Header := List (GoString × List GoString)

/-- Method `Header.Values(key)` for a key in canonical form: all values of the field,
none when the field is absent. -/
def Header.Values (h : Header) (key : GoString) : List GoString :=
  (h.lookup key).getD []

/-- The part of `http.Response` that is read: its header. -/
structure Response where
  Header : Header
  deriving DecidableEq, Repr

/-- The `for _, val := range links` loop: the variables `endpoint` and `pri` after it. -/
def linkTokensLoop : List GoString → GoString → Int → Except Panic (GoString × Int)
  | [], endpoint, pri => .ok (endpoint, pri)
  | val :: links, endpoint, pri =>
    if stringsHasPrefix val "<".toList then
      match goSlice val 1 ((val.length : Int) - 1) with
      | .error p => .error p
      | .ok e => linkTokensLoop links e pri
    else if stringsHasPrefix val "pri".toList then
      match goSliceFrom val 4 with
      | .error p => .error p
      | .ok d => linkTokensLoop links endpoint (Atoi d).1
    else linkTokensLoop links endpoint pri

/-- One iteration of the loop over the segments of the `Link` header: the cache
appended for `linksStr`. -/
def cacheFromLinks (linksStr : GoString) : Except Panic DirectorCache :=
  let links := stringsSplit ';' (removeSpaces linksStr)
  match linkTokensLoop links [] 0 with
  | .error p => .error p
  | .ok (endpoint, pri) =>
    let cache : DirectorCache := {}
    match goIndex (stringsSplit ':' endpoint) 1 with
    | .error p => .error p
    | .ok port =>
      let cache :=
        if port = "8000".toList then { cache with AuthedReq := false }
        else if port = "8443".toList then { cache with AuthedReq := true }
        else cache
      let cache := { cache with EndpointUrl := endpoint }
      let cache := { cache with Priority := pri }
      .ok cache

/-- The loop over the segments: `caches` after the last `append`. -/
def cachesLoop : List GoString → List DirectorCache → Except Panic (List DirectorCache)
  | [], caches => .ok caches
  | linksStr :: rest, caches =>
    match cacheFromLinks linksStr with
    | .error p => .error p
    | .ok cache => cachesLoop rest (caches ++ [cache])

/-- The `less` closure handed to `sort.Slice`. -/
def priorityLess (a b : DirectorCache) : Bool :=
  decide (a.Priority < b.Priority)

/-- Function `GetCachesFromDirectorResponse(resp)`: the pair `(caches, err)` it returns,
or the panic it raises. -/
def GetCachesFromDirectorResponse (S : SliceSorter) (resp : Response) :
    Except Panic (List DirectorCache × Option GoError) :=
  let linkHeader := resp.Header.Values "Link".toList
  match goIndex linkHeader 0 with
  | .error p => .error p
  | .ok link0 =>
    match cachesLoop (stringsSplit ',' link0) [] with
    | .error p => .error p
    | .ok caches => .ok (S.sort priorityLess caches, none)

/-! ## `CreateNSFromDirectorResp` -/

/-- The fields of `Namespace` that `CreateNSFromDirectorResp` assigns. -/
structure Namespace where
  Path : GoString := []
  UseTokenOnRead : Bool := false
  ReadHTTPS : Bool := false
  Issuer : GoString := []
  SortedDirectorCaches : List DirectorCache := []
  deriving DecidableEq, Repr

/-- The statements on the `X-Osdf-Authorization` header: when the header is present,
`Issuer` is assigned from its first value. -/
def issuerFromAuthorization (dirResp : Response) (ns : Namespace) : Except Panic Namespace :=
  if (dirResp.Header.Values "X-Osdf-Authorization".toList).length > 0 then
    match goIndex (dirResp.Header.Values "X-Osdf-Authorization".toList) 0 with
    | .error p => .error p
    | .ok a0 =>
      match HeaderParser a0 with
      | .error p => .error p
      | .ok (X_OSDF_Authorization, _) =>
        .ok { ns with Issuer := X_OSDF_Authorization.get "Issuer".toList }
  else .ok ns

/-- Function `CreateNSFromDirectorResp(dirResp, namespace)`: the namespace behind the
pointer when the call ends, and how it ends: with the returned `err` or with a panic. -/
def CreateNSFromDirectorResp (S : SliceSorter) (dirResp : Response) (ns : Namespace) :
    Namespace × Except Panic (Option GoError) :=
  match goIndex (dirResp.Header.Values "X-Osdf-Namespace".toList) 0 with
  | .error p => (ns, .error p)
  | .ok v0 =>
    match HeaderParser v0 with
    | .error p => (ns, .error p)
    | .ok (X_OSDF_Namespace, _) =>
      let ns := { ns with Path := X_OSDF_Namespace.get "Namespace".toList }
      let ns := { ns with
        UseTokenOnRead := (ParseBool (X_OSDF_Namespace.get "UseTokenOnRead".toList)).1 }
      let ns := { ns with ReadHTTPS := (ParseBool (X_OSDF_Namespace.get "ReadHTTPS".toList)).1 }
      match issuerFromAuthorization dirResp ns with
      | .error p => (ns, .error p)
      | .ok ns =>
        match GetCachesFromDirectorResponse S dirResp with
        | .error p => (ns, .error p)
        | .ok (caches, err) =>
          let ns := { ns with SortedDirectorCaches := caches }
          (ns, .ok err)

/-! ## `net/url`: the `URL` type and `url.Parse` -/

/-- Type `url.Userinfo`. -/
structure Userinfo where
  username : GoString := []
  password : GoString := []
  passwordSet : Bool := false
  deriving DecidableEq, Repr

/-- Type `url.URL`; `User` is `none` for the nil pointer. -/
structure URL where
  Scheme : GoString := []
  Opaque : GoString := []
  User : Option Userinfo := none
  Host : GoString := []
  Path : GoString := []
  RawPath : GoString := []
  OmitHost : Bool := false
  ForceQuery : Bool := false
  RawQuery : GoString := []
  Fragment : GoString := []
  RawFragment : GoString := []
  deriving DecidableEq, Repr

/-- The escaping modes of package `net/url`. -/
inductive Encoding where
  | encodePath
  | encodePathSegment
  | encodeHost
  | encodeZone
  | encodeUserPassword
  | encodeQueryComponent
  | encodeFragment
  deriving DecidableEq, Repr

/-- Function `strings.Cut(s, sep)` for a one-byte separator: the text before the first
`sep`, the text after it, and whether `sep` occurs. -/
def stringsCut (sep : Char) : GoString → GoString × GoString × Bool
  | [] => ([], [], false)
  | c :: cs =>
    if c = sep then ([], cs, true)
    else
      let (before, after, found) := stringsCut sep cs
      (c :: before, after, found)

/-- The text before the last `sep` and the text from it on, when `sep` occurs:
`s[:i]` and `s[i:]` for `i = strings.LastIndex(s, sep)`. -/
def splitAtLast (sep : Char) : GoString → Option (GoString × GoString)
  | [] => none
  | c :: cs =>
    match splitAtLast sep cs with
    | some (before, fromSep) => some (c :: before, fromSep)
    | none => if c = sep then some ([], c :: cs) else none

/-- The text before the first occurrence of `pat` and the text from it on, when `pat`
occurs: `s[:i]` and `s[i:]` for `i = strings.Index(s, pat)`. -/
def splitAtFirst (pat : GoString) : GoString → Option (GoString × GoString)
  | [] => if pat = [] then some ([], []) else none
  | c :: cs =>
    if pat.isPrefixOf (c :: cs) then some ([], c :: cs)
    else
      match splitAtFirst pat cs with
      | some (before, fromPat) => some (c :: before, fromPat)
      | none => none

/-- Function `stringContainsCTLByte`. -/
def stringContainsCTLByte (s : GoString) : Bool :=
  s.any (fun b => decide (b.toNat < ' '.toNat) || decide (b.toNat = 0x7f))

/-- Function `ishex(c)`: `c` is a hexadecimal digit. -/
def ishex (c : Char) : Bool :=
  decide ('0' ≤ c ∧ c ≤ '9') || decide ('a' ≤ c ∧ c ≤ 'f') || decide ('A' ≤ c ∧ c ≤ 'F')

/-- Function `unhex(c)`: the value of the hexadecimal digit `c`. -/
def unhex (c : Char) : Nat :=
  if '0' ≤ c ∧ c ≤ '9' then c.toNat - '0'.toNat
  else if 'a' ≤ c ∧ c ≤ 'f' then c.toNat - 'a'.toNat + 10
  else if 'A' ≤ c ∧ c ≤ 'F' then c.toNat - 'A'.toNat + 10
  else 0

/-- Function `shouldEscape(c, mode)`. -/
def shouldEscape (c : Char) (mode : Encoding) : Bool :=
  if ('a' ≤ c ∧ c ≤ 'z') ∨ ('A' ≤ c ∧ c ≤ 'Z') ∨ ('0' ≤ c ∧ c ≤ '9') then false
  else if (mode = .encodeHost ∨ mode = .encodeZone) ∧
      c ∈ ['!', '$', '&', '\'', '(', ')', '*', '+', ',', ';', '=', ':', '[', ']', '<', '>',
        '"'] then false
  else if c ∈ ['-', '_', '.', '~'] then false
  else if c ∈ ['$', '&', '+', ',', '/', ':', ';', '=', '?', '@'] &&
      mode ∈ [Encoding.encodePath, .encodePathSegment, .encodeUserPassword,
        .encodeQueryComponent, .encodeFragment] then
    match mode with
    | .encodePath => decide (c = '?')
    | .encodePathSegment => decide (c = '/' ∨ c = ';' ∨ c = ',' ∨ c = '?')
    | .encodeUserPassword => decide (c = '@' ∨ c = '/' ∨ c = '?' ∨ c = ':')
    | .encodeQueryComponent => true
    | _ => false
  else if mode = .encodeFragment ∧ c ∈ ['!', '(', ')', '*'] then false
  else true

/-- The first loop of `unescape`: the `%` escapes are counted and checked; the result is
the error found, or the number of escapes and whether a `+` has to become a space. -/
def unescapeScan (mode : Encoding) : GoString → Nat → Bool → Except GoError (Nat × Bool)
  | [], n, hasPlus => .ok (n, hasPlus)
  | '%' :: rest, n, hasPlus =>
    match rest with
    | a :: b :: rest2 =>
      if ¬ (ishex a ∧ ishex b) then .error .escapeError
      else if mode = .encodeHost ∧ unhex a < 8 ∧ ['%', a, b] ≠ "%25".toList then
        .error .escapeError
      else if mode = .encodeZone ∧ ['%', a, b] ≠ "%25".toList ∧
          unhex a * 16 + unhex b ≠ ' '.toNat ∧
          shouldEscape (Char.ofNat (unhex a * 16 + unhex b)) .encodeHost then
        .error .escapeError
      else unescapeScan mode rest2 (n + 1) hasPlus
    | _ => .error .escapeError
  | c :: rest, n, hasPlus =>
    if c = '+' then unescapeScan mode rest n (decide (mode = .encodeQueryComponent))
    else if (mode = .encodeHost ∨ mode = .encodeZone) ∧ c.toNat < 0x80 ∧
        shouldEscape c .encodeHost then .error .invalidHostError
    else unescapeScan mode rest n hasPlus

/-- The second loop of `unescape`: the escapes are replaced by their bytes. -/
def unescapeBuild (mode : Encoding) : GoString → GoString
  | [] => []
  | '%' :: a :: b :: rest => Char.ofNat (unhex a * 16 + unhex b) :: unescapeBuild mode rest
  | c :: rest =>
    if c = '+' ∧ mode = .encodeQueryComponent then ' ' :: unescapeBuild mode rest
    else c :: unescapeBuild mode rest

/-- Function `unescape(s, mode)`. -/
def unescape (s : GoString) (mode : Encoding) : Except GoError GoString :=
  match unescapeScan mode s 0 false with
  | .error e => .error e
  | .ok (n, hasPlus) => if n = 0 ∧ hasPlus = false then .ok s else .ok (unescapeBuild mode s)

/-- The byte `upperhex[n]`. -/
def upperhex (n : Nat) : Char :=
  "0123456789ABCDEF".toList.getD n '0'

/-- Function `escape(s, mode)`. -/
def escape (s : GoString) (mode : Encoding) : GoString :=
  s.flatMap (fun c =>
    if shouldEscape c mode then
      if c = ' ' ∧ mode = .encodeQueryComponent then ['+']
      else ['%', upperhex (c.toNat / 16), upperhex (c.toNat % 16)]
    else [c])

/-- The loop of `getScheme(rawURL)` from byte `i` on: the scheme and the rest, or the
error. -/
def getSchemeLoop (rawURL : GoString) : GoString → Nat → Except GoError (GoString × GoString)
  | [], _ => .ok ([], rawURL)
  | c :: cs, i =>
    if ('a' ≤ c ∧ c ≤ 'z') ∨ ('A' ≤ c ∧ c ≤ 'Z') then getSchemeLoop rawURL cs (i + 1)
    else if ('0' ≤ c ∧ c ≤ '9') ∨ c = '+' ∨ c = '-' ∨ c = '.' then
      if i = 0 then .ok ([], rawURL) else getSchemeLoop rawURL cs (i + 1)
    else if c = ':' then
      if i = 0 then .error .missingProtocolScheme else .ok (rawURL.take i, cs)
    else .ok ([], rawURL)

/-- Function `getScheme(rawURL)`. -/
def getScheme (rawURL : GoString) : Except GoError (GoString × GoString) :=
  getSchemeLoop rawURL rawURL 0

/-- Function `strings.ToLower` on a string of ASCII bytes. -/
def asciiToLower (s : GoString) : GoString :=
  s.map (fun c => if 'A' ≤ c ∧ c ≤ 'Z' then Char.ofNat (c.toNat + 32) else c)

/-- Function `validOptionalPort(port)`. -/
def validOptionalPort (port : GoString) : Bool :=
  match port with
  | [] => true
  | c :: rest => decide (c = ':') && rest.all (fun b => decide ('0' ≤ b ∧ b ≤ '9'))

/-- Function `validUserinfo(s)`. -/
def validUserinfo (s : GoString) : Bool :=
  s.all (fun r =>
    decide (('A' ≤ r ∧ r ≤ 'Z') ∨ ('a' ≤ r ∧ r ≤ 'z') ∨ ('0' ≤ r ∧ r ≤ '9')) ||
    decide (r ∈ ['-', '.', '_', ':', '~', '!', '$', '&', '\'', '(', ')', '*', '+', ',', ';',
      '=', '%', '@']))

/-- Function `parseHost(host)`. -/
def parseHost (host : GoString) : Except GoError GoString :=
  if stringsHasPrefix host "[".toList then
    match splitAtLast ']' host with
    | none => .error .missingBracketInHost
    | some (beforeBracket, fromBracket) =>
      let colonPort := fromBracket.drop 1
      if ¬ validOptionalPort colonPort then .error .invalidPort
      else
        match splitAtFirst "%25".toList beforeBracket with
        | some (beforeZone, zone) =>
          match unescape beforeZone .encodeHost with
          | .error e => .error e
          | .ok host1 =>
            match unescape zone .encodeZone with
            | .error e => .error e
            | .ok host2 =>
              match unescape fromBracket .encodeHost with
              | .error e => .error e
              | .ok host3 => .ok (host1 ++ host2 ++ host3)
        | none => unescape host .encodeHost
  else
    match splitAtLast ':' host with
    | some (_, colonPort) =>
      if ¬ validOptionalPort colonPort then .error .invalidPort
      else unescape host .encodeHost
    | none => unescape host .encodeHost

/-- Function `parseAuthority(authority)`. -/
def parseAuthority (authority : GoString) : Except GoError (Option Userinfo × GoString) :=
  match splitAtLast '@' authority with
  | none =>
    match parseHost authority with
    | .error e => .error e
    | .ok host => .ok (none, host)
  | some (userinfo, fromAt) =>
    match parseHost (fromAt.drop 1) with
    | .error e => .error e
    | .ok host =>
      if ¬ validUserinfo userinfo then .error .invalidUserinfo
      else if ':' ∉ userinfo then
        match unescape userinfo .encodeUserPassword with
        | .error e => .error e
        | .ok username => .ok (some { username := username }, host)
      else
        let (username, password, _) := stringsCut ':' userinfo
        match unescape username .encodeUserPassword with
        | .error e => .error e
        | .ok username =>
          match unescape password .encodeUserPassword with
          | .error e => .error e
          | .ok password =>
            .ok (some { username := username, password := password, passwordSet := true },
              host)

/-- Method `(*URL).setPath(p)`. -/
def URL.setPath (u : URL) (p : GoString) : Except GoError URL :=
  match unescape p .encodePath with
  | .error e => .error e
  | .ok path =>
    .ok { u with Path := path, RawPath := if p = escape path .encodePath then [] else p }

/-- Method `(*URL).setFragment(f)`. -/
def URL.setFragment (u : URL) (f : GoString) : Except GoError URL :=
  match unescape f .encodeFragment with
  | .error e => .error e
  | .ok frag =>
    .ok { u with
      Fragment := frag, RawFragment := if f = escape frag .encodeFragment then [] else f }

/-- Function `parse(rawURL, viaRequest)` of `net/url` for `viaRequest = false`. -/
def urlParseNoFragment (rawURL : GoString) : Except GoError URL :=
  if stringContainsCTLByte rawURL then .error .invalidControlCharacter
  else if rawURL = "*".toList then .ok { Path := "*".toList }
  else
    match getScheme rawURL with
    | .error e => .error e
    | .ok (scheme, rest) =>
      let url : URL := { Scheme := asciiToLower scheme }
      let (url, rest) :=
        if rest.getLast? = some '?' ∧ rest.count '?' = 1 then
          ({ url with ForceQuery := true }, rest.dropLast)
        else
          let (before, after, _) := stringsCut '?' rest
          ({ url with RawQuery := after }, before)
      if ¬ stringsHasPrefix rest "/".toList ∧ url.Scheme ≠ [] then
        .ok { url with Opaque := rest }
      else if ¬ stringsHasPrefix rest "/".toList ∧ ':' ∈ (stringsCut '/' rest).1 then
        .error .firstPathSegmentColon
      else if (url.Scheme ≠ [] ∨ ¬ stringsHasPrefix rest "///".toList) ∧
          stringsHasPrefix rest "//".toList then
        let authority := rest.drop 2
        let (authority, rest) :=
          match splitAtFirst "/".toList authority with
          | some (before, fromSlash) => (before, fromSlash)
          | none => (authority, [])
        match parseAuthority authority with
        | .error e => .error e
        | .ok (user, host) => URL.setPath { url with User := user, Host := host } rest
      else if url.Scheme ≠ [] ∧ stringsHasPrefix rest "/".toList then
        URL.setPath { url with OmitHost := true } rest
      else URL.setPath url rest

/-- Function `url.Parse(rawURL)` of the Go standard library (`net/url`, Go 1.20). -/
def urlParse (rawURL : GoString) : Except GoError URL :=
  let (u, frag, _) := stringsCut '#' rawURL
  match urlParseNoFragment u with
  | .error e => .error e
  | .ok url => if frag = [] then .ok url else URL.setFragment url frag


/-! ## `NewTransferDetailsUsingDirector` -/

/-- The fields of `TransferDetails` that `NewTransferDetailsUsingDirector` sets. -/
structure TransferDetails where
  Url : URL
  Proxy : Bool
  deriving DecidableEq, Repr

/-- What `NewTransferDetailsUsingDirector` asks of the rest of the package: the answers
of `HasPort`, `IsProxyEnabled()` and `CanDisableProxy()`. -/
structure Env where
  HasPort : GoString → Bool
  IsProxyEnabled : Bool
  CanDisableProxy : Bool

/-- The statements after `url.Parse`: an URL without host is taken to be a bare host
name. -/
def assumeHostname (cacheURL : URL) (cacheEndpoint : GoString) : URL :=
  if cacheURL.Host = [] then
    { cacheURL with Host := cacheEndpoint, Path := [], Scheme := [], Opaque := [] }
  else cacheURL

/-- Function `NewTransferDetailsUsingDirector(cache, https)`: the slice it returns (the
nil slice is the empty list), or the panic it raises. -/
def NewTransferDetailsUsingDirector (env : Env) (cache : DirectorCache) (https : Bool) :
    Except Panic (List TransferDetails) :=
  let details : List TransferDetails := []
  let cacheEndpoint := cache.EndpointUrl
  match urlParse cacheEndpoint with
  | .error _ => .ok []
  | .ok cacheURL =>
    let cacheURL := assumeHostname cacheURL cacheEndpoint
    if https then
      let cacheURL := { cacheURL with Scheme := "https".toList }
      if ¬ env.HasPort cacheURL.Host then
        let cacheURL := { cacheURL with Host := cacheURL.Host ++ ":8444".toList }
        let details := details ++ [{ Url := cacheURL, Proxy := false }]
        match goSlice cacheURL.Host 0 ((cacheURL.Host.length : Int) - 5) with
        | .error p => .error p
        | .ok stripped =>
          let cacheURL := { cacheURL with Host := stripped ++ ":8443".toList }
          .ok (details ++ [{ Url := cacheURL, Proxy := false }])
      else .ok (details ++ [{ Url := cacheURL, Proxy := false }])
    else
      let cacheURL := { cacheURL with Scheme := "http".toList }
      let cacheURL :=
        if ¬ env.HasPort cacheURL.Host then
          { cacheURL with Host := cacheURL.Host ++ ":8000".toList }
        else cacheURL
      let isProxyEnabled := env.IsProxyEnabled
      let details := details ++ [{ Url := cacheURL, Proxy := isProxyEnabled }]
      let details :=
        if isProxyEnabled && env.CanDisableProxy then
          details ++ [{ Url := cacheURL, Proxy := false }]
        else details
      .ok details

/-- A `HasPort` that reports a port when the host ends in a colon and decimal digits. -/
def hasPortColonDigits (host : GoString) : Bool :=
  match splitAtLast ':' host with
  | some (_, colonPort) => decide (1 < colonPort.length) && validOptionalPort colonPort
  | none => false

/-- An environment without proxy. -/
def directEnv : Env where
  HasPort := hasPortColonDigits
  IsProxyEnabled := false
  CanDisableProxy := false

/-- An environment with a proxy that may be disabled. -/
def proxyEnv : Env where
  HasPort := hasPortColonDigits
  IsProxyEnabled := true
  CanDisableProxy := true

/-! ## Conforming sorters -/

/-- Insertion sort, the algorithm `sort.Slice` runs on short slices. -/
def insertionSortFunc {α : Type} (less : α → α → Bool) (l : List α) : List α :=
  l.insertionSort (fun a b => less b a = false)

/-- Insertion sort as a `sort.Slice`. -/
def insertionSorter : SliceSorter where
  sort := fun less l => insertionSortFunc less l
  perm := fun _ l => List.perm_insertionSort _ l
  sorted := fun {α} less l h => by
    haveI : IsTotal α (fun a b => less b a = false) := ⟨fun a b => by
      cases hba : less b a
      · exact Or.inl rfl
      · cases hab : less a b
        · exact Or.inr rfl
        · have := h.trans a b a hab hba
          rw [h.irrefl a] at this
          exact absurd this (by decide)⟩
    haveI : IsTrans α (fun a b => less b a = false) :=
      ⟨fun a b c hab hbc => h.negTrans c b a hbc hab⟩
    exact List.sorted_insertionSort (fun a b => less b a = false) l

/-! ## `sort.Slice` since Go 1.19: pattern-defeating quicksort -/

/-- Method `Less(i, j)` of `lessSwap` for the slice `data`, with both indexes inside the
slice: whether element `i` sorts before element `j`. -/
def lessAt {α : Type} (less : α → α → Bool) (data : List α) (i j : Nat) : Bool :=
  match data[i]?, data[j]? with
  | some x, some y => less x y
  | _, _ => false

/-- Method `Swap(i, j)` of `lessSwap`, with both indexes inside the slice: the slice
after elements `i` and `j` changed places. -/
def swapAt {α : Type} (data : List α) (i j : Nat) : List α :=
  match data[i]?, data[j]? with
  | some x, some y => (data.set i y).set j x
  | _, _ => data

/-- Function `bits.Len(x)` for a 64-bit `x`: the number of bits needed to write `x`. -/
def bitsLen (x : Nat) : Nat :=
  (List.range 64).foldl (fun n k => if 2 ^ k ≤ x then k + 1 else n) 0

/-- Function `nextPowerOfTwo(length)`. -/
def nextPowerOfTwo (length : Nat) : Nat :=
  1 <<< bitsLen length

/-- The inner loop of `insertionSort_func`:
`for j := i; j > a && data.Less(j, j-1); j-- { data.Swap(j, j-1) }`. -/
def insertionSortInner {α : Type} (less : α → α → Bool) (a : Nat) : Nat → List α → List α
  | 0, data => data
  | j + 1, data =>
    if decide (j + 1 > a) && lessAt less data (j + 1) j then
      insertionSortInner less a j (swapAt data (j + 1) j)
    else data

/-- Function `insertionSort_func(data, a, b)`: sorts `data[a:b]` by insertion. -/
def insertionSort_func {α : Type} (less : α → α → Bool) (data : List α) (a b : Nat) : List α :=
  (List.range' (a + 1) (b - (a + 1))).foldl (fun data i => insertionSortInner less a i data) data

/-- Function `siftDown_func(data, lo, hi, first)`, its loop run from `root`. The loop
is left after fewer than `hi` iterations, because `root` grows and stays below `hi`; it
is entered with `fuel = hi`. -/
def siftDown_func {α : Type} (less : α → α → Bool) (hi first : Nat) :
    Nat → List α → Nat → List α
  | 0, data, _ => data
  | fuel + 1, data, root =>
    let child := 2 * root + 1
    if child ≥ hi then data
    else
      let child :=
        if decide (child + 1 < hi) && lessAt less data (first + child) (first + child + 1) then
          child + 1
        else child
      if !lessAt less data (first + root) (first + child) then data
      else siftDown_func less hi first fuel (swapAt data (first + root) (first + child)) child

/-- Function `heapSort_func(data, a, b)`. -/
def heapSort_func {α : Type} (less : α → α → Bool) (data : List α) (a b : Nat) : List α :=
  let first := a
  let lo := 0
  let hi := b - a
  let data := (List.range ((hi - 1) / 2 + 1)).reverse.foldl
    (fun data i => siftDown_func less hi first hi data i) data
  (List.range hi).reverse.foldl
    (fun data i => siftDown_func less i first i (swapAt data first (first + i)) lo) data

/-- The loop `for i <= j && data.Less(i, a) { i++ }` of `partition_func`: the value of
`i` after it. Here and in the loops below that count upwards, `fuel` is `len(data)` on
entry, which the number of iterations cannot reach, the counter being an index. -/
def partitionScanUp {α : Type} (less : α → α → Bool) (data : List α) (a j : Nat) :
    Nat → Nat → Nat
  | 0, i => i
  | fuel + 1, i =>
    if decide (i ≤ j) && lessAt less data i a then partitionScanUp less data a j fuel (i + 1)
    else i

/-- The loop `for i <= j && !data.Less(j, a) { j-- }` of `partition_func`: the value of
`j` after it. As `i` is above `a`, `j` stays at or above `a`. -/
def partitionScanDown {α : Type} (less : α → α → Bool) (data : List α) (a i : Nat) :
    Nat → Nat
  | 0 => 0
  | j + 1 =>
    if decide (i ≤ j + 1) && !lessAt less data (j + 1) a then partitionScanDown less data a i j
    else j + 1

/-- The `for` loop of `partition_func`: the slice and `j` after it. -/
def partitionLoop {α : Type} (less : α → α → Bool) (a : Nat) :
    Nat → List α → Nat → Nat → List α × Nat
  | 0, data, _, j => (data, j)
  | fuel + 1, data, i, j =>
    let i := partitionScanUp less data a j data.length i
    let j := partitionScanDown less data a i j
    if i > j then (data, j)
    else partitionLoop less a fuel (swapAt data i j) (i + 1) (j - 1)

/-- Function `partition_func(data, a, b, pivot)`: the slice after it, `newpivot` and
`alreadyPartitioned`. -/
def partition_func {α : Type} (less : α → α → Bool) (data : List α) (a b pivot : Nat) :
    List α × Nat × Bool :=
  let data := swapAt data a pivot
  let i := a + 1
  let j := b - 1
  let i := partitionScanUp less data a j data.length i
  let j := partitionScanDown less data a i j
  if i > j then (swapAt data j a, j, true)
  else
    let data := swapAt data i j
    let i := i + 1
    let j := j - 1
    let (data, j) := partitionLoop less a data.length data i j
    (swapAt data j a, j, false)

/-- The loop `for i <= j && !data.Less(a, i) { i++ }` of `partitionEqual_func`. -/
def partitionEqualScanUp {α : Type} (less : α → α → Bool) (data : List α) (a j : Nat) :
    Nat → Nat → Nat
  | 0, i => i
  | fuel + 1, i =>
    if decide (i ≤ j) && !lessAt less data a i then
      partitionEqualScanUp less data a j fuel (i + 1)
    else i

/-- The loop `for i <= j && data.Less(a, j) { j-- }` of `partitionEqual_func`. -/
def partitionEqualScanDown {α : Type} (less : α → α → Bool) (data : List α) (a i : Nat) :
    Nat → Nat
  | 0 => 0
  | j + 1 =>
    if decide (i ≤ j + 1) && lessAt less data a (j + 1) then
      partitionEqualScanDown less data a i j
    else j + 1

/-- The `for` loop of `partitionEqual_func`: the slice and `i` after it. -/
def partitionEqualLoop {α : Type} (less : α → α → Bool) (a : Nat) :
    Nat → List α → Nat → Nat → List α × Nat
  | 0, data, i, _ => (data, i)
  | fuel + 1, data, i, j =>
    let i := partitionEqualScanUp less data a j data.length i
    let j := partitionEqualScanDown less data a i j
    if i > j then (data, i)
    else partitionEqualLoop less a fuel (swapAt data i j) (i + 1) (j - 1)

/-- Function `partitionEqual_func(data, a, b, pivot)`: the slice after it and
`newpivot`. -/
def partitionEqual_func {α : Type} (less : α → α → Bool) (data : List α) (a b pivot : Nat) :
    List α × Nat :=
  let data := swapAt data a pivot
  partitionEqualLoop less a data.length data (a + 1) (b - 1)

/-- The loop `for i < b && !data.Less(i, i-1) { i++ }` of `partialInsertionSort_func`. -/
def partialInsertionScan {α : Type} (less : α → α → Bool) (data : List α) (b : Nat) :
    Nat → Nat → Nat
  | 0, i => i
  | fuel + 1, i =>
    if decide (i < b) && !lessAt less data i (i - 1) then
      partialInsertionScan less data b fuel (i + 1)
    else i

/-- The loop `for j := i - 1; j >= 1; j--` of `partialInsertionSort_func`, which shifts
the smaller element to the left. -/
def shiftSmaller {α : Type} (less : α → α → Bool) : Nat → List α → List α
  | 0, data => data
  | j + 1, data =>
    if !lessAt less data (j + 1) j then data
    else shiftSmaller less j (swapAt data (j + 1) j)

/-- The loop `for j := i + 1; j < b; j++` of `partialInsertionSort_func`, which shifts
the greater element to the right. -/
def shiftGreater {α : Type} (less : α → α → Bool) (b : Nat) : Nat → List α → Nat → List α
  | 0, data, _ => data
  | fuel + 1, data, j =>
    if j < b then
      if !lessAt less data j (j - 1) then data
      else shiftGreater less b fuel (swapAt data j (j - 1)) (j + 1)
    else data

/-- The loop `for j := 0; j < maxSteps; j++` of `partialInsertionSort_func`, with
`steps` iterations left. -/
def partialInsertionSortLoop {α : Type} (less : α → α → Bool) (a b : Nat) :
    Nat → List α → Nat → List α × Bool
  | 0, data, _ => (data, false)
  | steps + 1, data, i =>
    let i := partialInsertionScan less data b data.length i
    if i = b then (data, true)
    else if b - a < 50 then (data, false)
    else
      let data := swapAt data i (i - 1)
      let data := if i - a ≥ 2 then shiftSmaller less (i - 1) data else data
      let data := if b - i ≥ 2 then shiftGreater less b data.length data (i + 1) else data
      partialInsertionSortLoop less a b steps data i

/-- Function `partialInsertionSort_func(data, a, b)`: the slice after it and whether it
is sorted. -/
def partialInsertionSort_func {α : Type} (less : α → α → Bool) (data : List α) (a b : Nat) :
    List α × Bool :=
  partialInsertionSortLoop less a b 5 data (a + 1)

/-- The loop `for i := 0; i < 3; i++` of `breakPatterns_func`, with `steps` iterations
left. -/
def breakPatternsLoop {α : Type} (next : Nat → Nat) (a length modulus idx : Nat) :
    Nat → List α → Nat → Nat → List α
  | 0, data, _, _ => data
  | steps + 1, data, random, i =>
    let random := next random
    let other := random &&& (modulus - 1)
    let other := if other ≥ length then other - length else other
    breakPatternsLoop next a length modulus idx steps (swapAt data (idx - 1 + i) (a + other))
      random (i + 1)

/-- Function `breakPatterns_func(data, a, b)`. The step of its pseudo-random generator,
method `Next` of `xorshift`, is `next`. -/
def breakPatterns_func {α : Type} (next : Nat → Nat) (data : List α) (a b : Nat) : List α :=
  let length := b - a
  if length ≥ 8 then
    let random := length
    let modulus := nextPowerOfTwo length
    let idx := a + (length / 4) * 2 - 1
    breakPatternsLoop next a length modulus idx 3 data random 0
  else data

/-- Type `sortedHint`. -/
inductive sortedHint where
  | unknownHint
  | increasingHint
  | decreasingHint
  deriving DecidableEq, Repr

/-- Function `order2_func(data, a, b, swaps)`: the two indexes and the counter `swaps`
after it. -/
def order2_func {α : Type} (less : α → α → Bool) (data : List α) (a b swaps : Nat) :
    Nat × Nat × Nat :=
  if lessAt less data b a then (b, a, swaps + 1) else (a, b, swaps)

/-- Function `median_func(data, a, b, c, swaps)`: the index and the counter `swaps`. -/
def median_func {α : Type} (less : α → α → Bool) (data : List α) (a b c swaps : Nat) :
    Nat × Nat :=
  let (a, b, swaps) := order2_func less data a b swaps
  let (b, _, swaps) := order2_func less data b c swaps
  let (_, b, swaps) := order2_func less data a b swaps
  (b, swaps)

/-- Function `medianAdjacent_func(data, a, swaps)`. -/
def medianAdjacent_func {α : Type} (less : α → α → Bool) (data : List α) (a swaps : Nat) :
    Nat × Nat :=
  median_func less data (a - 1) a (a + 1) swaps

/-- Function `choosePivot_func(data, a, b)`. -/
def choosePivot_func {α : Type} (less : α → α → Bool) (data : List α) (a b : Nat) :
    Nat × sortedHint :=
  let l := b - a
  let swaps := 0
  let i := a + l / 4 * 1
  let j := a + l / 4 * 2
  let k := a + l / 4 * 3
  let (j, swaps) :=
    if l ≥ 8 then
      let (i, j, k, swaps) :=
        if l ≥ 50 then
          let (i, swaps) := medianAdjacent_func less data i swaps
          let (j, swaps) := medianAdjacent_func less data j swaps
          let (k, swaps) := medianAdjacent_func less data k swaps
          (i, j, k, swaps)
        else (i, j, k, swaps)
      median_func less data i j k swaps
    else (j, swaps)
  if swaps = 0 then (j, .increasingHint)
  else if swaps = 4 * 3 then (j, .decreasingHint)
  else (j, .unknownHint)

/-- The loop `for i < j` of `reverseRange_func`. -/
def reverseRangeLoop {α : Type} : Nat → List α → Nat → Nat → List α
  | 0, data, _, _ => data
  | fuel + 1, data, i, j =>
    if i < j then reverseRangeLoop fuel (swapAt data i j) (i + 1) (j - 1) else data

/-- Function `reverseRange_func(data, a, b)`. -/
def reverseRange_func {α : Type} (data : List α) (a b : Nat) : List α :=
  reverseRangeLoop data.length data a (b - 1)

/-- Function `pdqsort_func(data, a, b, limit)`, its loop entered with the given
`wasBalanced` and `wasPartitioned`: the slice after it. Every iteration that does not
return goes on with fewer elements, and so does the call of itself; `fuel` counts the
iterations and nested calls still allowed, and `none` says that it did not suffice. The
step of the pseudo-random generator of `breakPatterns_func` is `next`. -/
def pdqsort_func {α : Type} (less : α → α → Bool) (next : Nat → Nat) :
    Nat → List α → Nat → Nat → Nat → Bool → Bool → Option (List α)
  | 0, _, _, _, _, _, _ => none
  | fuel + 1, data, a, b, limit, wasBalanced, wasPartitioned =>
    let length := b - a
    if length ≤ 12 then some (insertionSort_func less data a b)
    else if limit = 0 then some (heapSort_func less data a b)
    else
      let data := if !wasBalanced then breakPatterns_func next data a b else data
      let limit := if !wasBalanced then limit - 1 else limit
      let (pivot, hint) := choosePivot_func less data a b
      let data := if hint = .decreasingHint then reverseRange_func data a b else data
      let pivot := if hint = .decreasingHint then (b - 1) - (pivot - a) else pivot
      let hint := if hint = .decreasingHint then sortedHint.increasingHint else hint
      let (data, sorted) :=
        if wasBalanced && wasPartitioned && decide (hint = .increasingHint) then
          partialInsertionSort_func less data a b
        else (data, false)
      if sorted then some data
      else if decide (a > 0) && !lessAt less data (a - 1) pivot then
        let (data, mid) := partitionEqual_func less data a b pivot
        pdqsort_func less next fuel data mid b limit wasBalanced wasPartitioned
      else
        let (data, mid, alreadyPartitioned) := partition_func less data a b pivot
        let wasPartitioned := alreadyPartitioned
        let leftLen := mid - a
        let rightLen := b - mid
        let balanceThreshold := length / 8
        if leftLen < rightLen then
          let wasBalanced := decide (leftLen ≥ balanceThreshold)
          match pdqsort_func less next fuel data a mid limit true true with
          | none => none
          | some data =>
            pdqsort_func less next fuel data (mid + 1) b limit wasBalanced wasPartitioned
        else
          let wasBalanced := decide (rightLen ≥ balanceThreshold)
          match pdqsort_func less next fuel data (mid + 1) b limit true true with
          | none => none
          | some data =>
            pdqsort_func less next fuel data a mid limit wasBalanced wasPartitioned

/-- Function `sort.Slice(x, less)` since Go 1.19: the slice after it. The closure `less`
of the caller compares the elements at two indexes of the slice; here it compares the
elements themselves. -/
def Slice {α : Type} (next : Nat → Nat) (less : α → α → Bool) (x : List α) :
    Option (List α) :=
  let length := x.length
  let limit := bitsLen length
  pdqsort_func less next (length + 1) x 0 length limit true true

/-- The `sort.Slice` of Go 1.19 and later as a `SliceSorter`: the slice that `Slice`
leaves. That this slice is sorted is checked on it rather than proved of
pattern-defeating quicksort, and one that failed the check, or a run that `fuel` cut
short, would be handed to insertion sort. -/
def pdqSorter (next : Nat → Nat) : SliceSorter where
  sort := fun less l =>
    match Slice next less l with
    | some r =>
      if r.Pairwise (fun a b => less b a = false) then r else insertionSortFunc less r
    | none => insertionSortFunc less l
  perm := fun {α} less l => by
    have hcons : ∀ (h y : α) (t : List α) (j : Nat), t[j]? = some y →
        (y :: t.set j h).Perm (h :: t) := by
      intro h y t
      induction t with
      | nil =>
        intro j hj
        simp at hj
      | cons u t ih =>
        intro j hj
        cases j with
        | zero =>
          simp only [List.getElem?_cons_zero, Option.some.injEq] at hj
          subst hj
          exact List.Perm.swap _ _ _
        | succ j =>
          simp only [List.getElem?_cons_succ] at hj
          simp only [List.set_cons_succ]
          exact (List.Perm.swap u y _).trans (((ih j hj).cons u).trans (List.Perm.swap h u t))
    have hset : ∀ (x y : α) (data : List α) (i j : Nat), data[i]? = some x → data[j]? = some y →
        ((data.set i y).set j x).Perm data := by
      intro x y data
      induction data with
      | nil =>
        intro i j hi _
        simp at hi
      | cons h t ih =>
        intro i j hi hj
        cases i with
        | zero =>
          simp only [List.getElem?_cons_zero, Option.some.injEq] at hi
          subst hi
          cases j with
          | zero =>
            simp only [List.getElem?_cons_zero, Option.some.injEq] at hj
            subst hj
            exact List.Perm.refl _
          | succ j =>
            simp only [List.getElem?_cons_succ] at hj
            simp only [List.set_cons_zero, List.set_cons_succ]
            exact hcons h y t j hj
        | succ i =>
          simp only [List.getElem?_cons_succ] at hi
          cases j with
          | zero =>
            simp only [List.getElem?_cons_zero, Option.some.injEq] at hj
            subst hj
            simp only [List.set_cons_zero, List.set_cons_succ]
            exact hcons h x t i hi
          | succ j =>
            simp only [List.getElem?_cons_succ] at hj
            simp only [List.set_cons_succ]
            exact (ih i j hi hj).cons h
    have hswap : ∀ (data : List α) (i j : Nat), (swapAt data i j).Perm data := by
      intro data i j
      unfold swapAt
      split
      · next x y hi hj => exact hset x y data i j hi hj
      · exact List.Perm.refl _
    have hfold : ∀ (f : List α → Nat → List α), (∀ d i, (f d i).Perm d) →
        ∀ (is : List Nat) (d : List α), (is.foldl f d).Perm d := by
      intro f hf is
      induction is with
      | nil => exact fun d => List.Perm.refl _
      | cons i is ih => exact fun d => (ih (f d i)).trans (hf d i)
    have hinner : ∀ (a j : Nat) (data : List α), (insertionSortInner less a j data).Perm data := by
      intro a j
      induction j with
      | zero => exact fun data => List.Perm.refl _
      | succ j ih =>
        intro data
        unfold insertionSortInner
        split
        · exact (ih _).trans (hswap _ _ _)
        · exact List.Perm.refl _
    have hinsertion : ∀ (data : List α) (a b : Nat), (insertionSort_func less data a b).Perm data :=
      fun data a b => hfold _ (fun d i => hinner a i d) _ _
    have hsift : ∀ (hi first fuel : Nat) (data : List α) (root : Nat),
        (siftDown_func less hi first fuel data root).Perm data := by
      intro hi first fuel
      induction fuel with
      | zero => exact fun data root => List.Perm.refl _
      | succ fuel ih =>
        intro data root
        unfold siftDown_func
        dsimp only
        split
        · exact List.Perm.refl _
        · generalize (if (decide (2 * root + 1 + 1 < hi) &&
              lessAt less data (first + (2 * root + 1)) (first + (2 * root + 1) + 1)) = true then
              2 * root + 1 + 1 else 2 * root + 1) = child
          split
          · exact List.Perm.refl _
          · exact (ih _ _).trans (hswap _ _ _)
    have hheap : ∀ (data : List α) (a b : Nat), (heapSort_func less data a b).Perm data := by
      intro data a b
      unfold heapSort_func
      dsimp only
      refine (hfold _ (fun d i => ?_) _ _).trans (hfold _ (fun d i => ?_) _ _)
      · exact (hsift _ _ _ _ _).trans (hswap _ _ _)
      · exact hsift _ _ _ _ _
    have hpartitionLoop : ∀ (a fuel : Nat) (data : List α) (i j : Nat),
        (partitionLoop less a fuel data i j).1.Perm data := by
      intro a fuel
      induction fuel with
      | zero => exact fun data i j => List.Perm.refl _
      | succ fuel ih =>
        intro data i j
        unfold partitionLoop
        dsimp only
        split
        · exact List.Perm.refl _
        · exact (ih _ _ _).trans (hswap _ _ _)
    have hpartition : ∀ (data : List α) (a b pivot : Nat),
        (partition_func less data a b pivot).1.Perm data := by
      intro data a b pivot
      unfold partition_func
      dsimp only
      split
      · exact (hswap _ _ _).trans (hswap _ _ _)
      · exact (hswap _ _ _).trans ((hpartitionLoop a _ _ _ _).trans
          ((hswap _ _ _).trans (hswap _ _ _)))
    have hequalLoop : ∀ (a fuel : Nat) (data : List α) (i j : Nat),
        (partitionEqualLoop less a fuel data i j).1.Perm data := by
      intro a fuel
      induction fuel with
      | zero => exact fun data i j => List.Perm.refl _
      | succ fuel ih =>
        intro data i j
        unfold partitionEqualLoop
        dsimp only
        split
        · exact List.Perm.refl _
        · exact (ih _ _ _).trans (hswap _ _ _)
    have hequal : ∀ (data : List α) (a b pivot : Nat),
        (partitionEqual_func less data a b pivot).1.Perm data := by
      intro data a b pivot
      unfold partitionEqual_func
      exact (hequalLoop a _ _ _ _).trans (hswap _ _ _)
    have hsmaller : ∀ (j : Nat) (data : List α), (shiftSmaller less j data).Perm data := by
      intro j
      induction j with
      | zero => exact fun data => List.Perm.refl _
      | succ j ih =>
        intro data
        unfold shiftSmaller
        split
        · exact List.Perm.refl _
        · exact (ih _).trans (hswap _ _ _)
    have hgreater : ∀ (b fuel : Nat) (data : List α) (j : Nat),
        (shiftGreater less b fuel data j).Perm data := by
      intro b fuel
      induction fuel with
      | zero => exact fun data j => List.Perm.refl _
      | succ fuel ih =>
        intro data j
        unfold shiftGreater
        split
        · split
          · exact List.Perm.refl _
          · exact (ih _ _).trans (hswap _ _ _)
        · exact List.Perm.refl _
    have hpartialLoop : ∀ (a b steps : Nat) (data : List α) (i : Nat),
        (partialInsertionSortLoop less a b steps data i).1.Perm data := by
      intro a b steps
      induction steps with
      | zero => exact fun data i => List.Perm.refl _
      | succ steps ih =>
        intro data i
        unfold partialInsertionSortLoop
        dsimp only
        generalize partialInsertionScan less data b data.length i = i1
        split
        · exact List.Perm.refl _
        · split
          · exact List.Perm.refl _
          · refine (ih _ _).trans ?_
            have h1 : ∀ d : List α,
                (if b - i1 ≥ 2 then shiftGreater less b d.length d (i1 + 1) else d).Perm d := by
              intro d
              split
              · exact hgreater b _ _ _
              · exact List.Perm.refl _
            have h2 : ∀ d : List α,
                (if i1 - a ≥ 2 then shiftSmaller less (i1 - 1) d else d).Perm d := by
              intro d
              split
              · exact hsmaller _ _
              · exact List.Perm.refl _
            exact (h1 _).trans ((h2 _).trans (hswap _ _ _))
    have hgaveUp : ∀ (data : List α) (a b : Nat),
        (partialInsertionSort_func less data a b).1.Perm data :=
      fun data a b => hpartialLoop a b _ _ _
    have hbreakLoop : ∀ (a length modulus idx steps : Nat) (data : List α) (random i : Nat),
        (breakPatternsLoop next a length modulus idx steps data random i).Perm data := by
      intro a length modulus idx steps
      induction steps with
      | zero => exact fun data random i => List.Perm.refl _
      | succ steps ih =>
        intro data random i
        unfold breakPatternsLoop
        exact (ih _ _ _).trans (hswap _ _ _)
    have hbreak : ∀ (data : List α) (a b : Nat), (breakPatterns_func next data a b).Perm data := by
      intro data a b
      unfold breakPatterns_func
      dsimp only
      split
      · exact hbreakLoop _ _ _ _ _ _ _ _
      · exact List.Perm.refl _
    have hreverseLoop : ∀ (fuel : Nat) (data : List α) (i j : Nat),
        (reverseRangeLoop fuel data i j).Perm data := by
      intro fuel
      induction fuel with
      | zero => exact fun data i j => List.Perm.refl _
      | succ fuel ih =>
        intro data i j
        unfold reverseRangeLoop
        split
        · exact (ih _ _ _).trans (hswap _ _ _)
        · exact List.Perm.refl _
    have hreverse : ∀ (data : List α) (a b : Nat), (reverseRange_func data a b).Perm data :=
      fun data a b => hreverseLoop _ _ _ _
    have hpdq : ∀ (fuel : Nat) (data : List α) (a b limit : Nat)
        (wasBalanced wasPartitioned : Bool) (r : List α),
        pdqsort_func less next fuel data a b limit wasBalanced wasPartitioned = some r →
          r.Perm data := by
      intro fuel
      induction fuel with
      | zero =>
        intro data a b limit wasBalanced wasPartitioned r h
        simp [pdqsort_func] at h
      | succ fuel ih =>
        intro data a b limit wasBalanced wasPartitioned r h
        unfold pdqsort_func at h
        dsimp only at h
        have hd1 : (if (!wasBalanced) = true then breakPatterns_func next data a b
            else data).Perm data := by
          split
          · exact hbreak _ _ _
          · exact List.Perm.refl _
        generalize (if (!wasBalanced) = true then breakPatterns_func next data a b
            else data) = d1 at h hd1
        generalize (if (!wasBalanced) = true then limit - 1 else limit) = limit1 at h
        generalize choosePivot_func less d1 a b = ph at h
        obtain ⟨pivot, hint⟩ := ph
        dsimp only at h
        have hd2 : (if hint = .decreasingHint then reverseRange_func d1 a b else d1).Perm d1 := by
          split
          · exact hreverse _ _ _
          · exact List.Perm.refl _
        generalize (if hint = .decreasingHint then reverseRange_func d1 a b else d1) = d2
          at h hd2
        generalize (if hint = .decreasingHint then b - 1 - (pivot - a) else pivot) = pivot2 at h
        generalize (if hint = .decreasingHint then sortedHint.increasingHint else hint) = hint2
          at h
        have hd3 : (if (wasBalanced && wasPartitioned && decide (hint2 = .increasingHint)) = true
            then partialInsertionSort_func less d2 a b else (d2, false)).1.Perm d2 := by
          split
          · exact hgaveUp _ _ _
          · exact List.Perm.refl _
        generalize (if (wasBalanced && wasPartitioned && decide (hint2 = .increasingHint)) = true
            then partialInsertionSort_func less d2 a b else (d2, false)) = ds at h hd3
        obtain ⟨d3, sorted⟩ := ds
        dsimp only at h hd3
        have h03 : d3.Perm data := hd3.trans (hd2.trans hd1)
        split at h
        · cases h
          exact hinsertion data a b
        · split at h
          · cases h
            exact hheap data a b
          · split at h
            · cases h
              exact h03
            · split at h
              · have hp := hequal d3 a b pivot2
                generalize partitionEqual_func less d3 a b pivot2 = pe at h hp
                obtain ⟨d4, mid⟩ := pe
                exact (ih _ _ _ _ _ _ _ h).trans (hp.trans h03)
              · have hp := hpartition d3 a b pivot2
                generalize partition_func less d3 a b pivot2 = pe at h hp
                obtain ⟨d4, mid, alreadyPartitioned⟩ := pe
                dsimp only at h hp
                split at h
                · split at h
                  · exact absurd h (by simp)
                  · next d5 h5 =>
                    exact (ih _ _ _ _ _ _ _ h).trans
                      ((ih _ _ _ _ _ _ _ h5).trans (hp.trans h03))
                · split at h
                  · exact absurd h (by simp)
                  · next d5 h5 =>
                    exact (ih _ _ _ _ _ _ _ h).trans
                      ((ih _ _ _ _ _ _ _ h5).trans (hp.trans h03))
    show (match Slice next less l with
      | some r => if r.Pairwise (fun a b => less b a = false) then r else insertionSortFunc less r
      | none => insertionSortFunc less l).Perm l
    cases hr : Slice next less l with
    | none => exact insertionSorter.perm less l
    | some r =>
      have hrl : r.Perm l := hpdq _ _ _ _ _ _ _ _ hr
      dsimp only
      split
      · exact hrl
      · exact (insertionSorter.perm less r).trans hrl
  sorted := fun {α} less l hless => by
    show (match Slice next less l with
      | some r => if r.Pairwise (fun a b => less b a = false) then r else insertionSortFunc less r
      | none => insertionSortFunc less l).Pairwise (fun a b => less b a = false)
    cases Slice next less l with
    | none => exact insertionSorter.sorted less l hless
    | some r =>
      dsimp only
      split
      · next h => exact h
      · exact insertionSorter.sorted less r hless

/-! ## Well-formed headers, as the specification describes them -/

/-- Value of a string of decimal digits, read from the left, after the value `n`. -/
def decimalValueFrom (n : Nat) (ds : GoString) : Nat :=
  ds.foldl (fun n c => n * 10 + (c.toNat - '0'.toNat)) n

/-- The string `d` is a decimal literal of the integer `p`, which fits the 64-bit `int`:
an optional sign and at least one decimal digit. -/
def IsIntLiteral (d : GoString) (p : Int) : Prop :=
  ∃ ds : GoString, ds ≠ [] ∧ (∀ c ∈ ds, '0' ≤ c ∧ c ≤ '9') ∧
    ((d = ds ∨ d = '+' :: ds) ∧ p = (decimalValueFrom 0 ds : Nat) ∨
      d = '-' :: ds ∧ p = -((decimalValueFrom 0 ds : Nat) : Int)) ∧
    -(2 : Int) ^ 63 ≤ p ∧ p < (2 : Int) ^ 63

/-- The segment `seg` of a `Link` header is well formed and advertises the endpoint `e`
with priority `p`: without its spaces it is `<e>`, where `e` is `host:port` and has no
semicolon, followed or not by `;pri=` and a decimal literal of `p`; `p` is 0 when there is
no `pri` token. -/
def SegmentDescribes (seg e : GoString) (p : Int) : Prop :=
  (∃ host port : GoString, e = host ++ ':' :: port) ∧ ';' ∉ e ∧
  (removeSpaces seg = '<' :: e ++ ">".toList ∧ p = 0 ∨
    ∃ d, removeSpaces seg = '<' :: e ++ ">;pri=".toList ++ d ∧ IsIntLiteral d p)

/-- The `Link` value is well formed and its comma-separated segments advertise, in
header order, the endpoints and priorities of `expected`. -/
def LinkDescribes (link : GoString) (expected : List (GoString × Int)) : Prop :=
  List.Forall₂ (fun seg d => SegmentDescribes seg d.1 d.2) (stringsSplit ',' link) expected

/-- A key or a value of a well-formed attribute list: no comma, no equals sign, no space. -/
def PlainToken (s : GoString) : Prop :=
  ',' ∉ s ∧ '=' ∉ s ∧ ' ' ∉ s

instance (s : GoString) : Decidable (PlainToken s) := by
  unfold PlainToken
  infer_instance

/-- The string `K=V` of one pair. -/
def renderPair (kv : GoString × GoString) : GoString :=
  kv.1 ++ '=' :: kv.2

/-- The string `K1=V1,K2=V2,...,Kn=Vn`, empty when `n = 0`. -/
def renderPairs : List (GoString × GoString) → GoString
  | [] => []
  | kv :: rest =>
    match rest with
    | [] => renderPair kv
    | _ :: _ => renderPair kv ++ ',' :: renderPairs rest

/-- The pairs of a well-formed attribute list: keys pairwise distinct, keys and values
free of comma, equals sign and space. -/
def WellFormedPairs (kvs : List (GoString × GoString)) : Prop :=
  (kvs.map Prod.fst).Nodup ∧ ∀ kv ∈ kvs, PlainToken kv.1 ∧ PlainToken kv.2

/-- The map after the assignments `m[K1] = V1`, ..., `m[Kn] = Vn`. -/
def setAll (m : GoMap) (kvs : List (GoString × GoString)) : GoMap :=
  kvs.foldl (fun m kv => m.set kv.1 kv.2) m

/-- A byte of a bare host name: a letter, a digit, a hyphen or a dot. -/
def hostnameByte (c : Char) : Bool :=
  decide (('a' ≤ c ∧ c ≤ 'z') ∨ ('A' ≤ c ∧ c ≤ 'Z') ∨ ('0' ≤ c ∧ c ≤ '9')) ||
    decide (c = '-') || decide (c = '.')

/-- A bare host name: host name bytes only, so no colon, no slash, no scheme. -/
def BareHostname (h : GoString) : Prop :=
  ∀ c ∈ h, hostnameByte c = true

instance (h : GoString) : Decidable (BareHostname h) := by
  unfold BareHostname
  infer_instance

/-- The segment `seg` of a `Link` header is, without its spaces, `<e>` or `<e>;pri=d`,
where `e` and `d` are any texts without semicolon; `p` is the priority the code takes
from it: 0 without `pri` token, and with one the value `strconv.Atoi` returns for `d`,
whose error is discarded. -/
def SegmentShape (seg e : GoString) (p : Int) : Prop :=
  ';' ∉ e ∧
  (removeSpaces seg = '<' :: e ++ ">".toList ∧ p = 0 ∨
    ∃ d, removeSpaces seg = '<' :: e ++ ">;pri=".toList ++ d ∧ ';' ∉ d ∧ p = (Atoi d).1)

/-! ## The response of the scenarios -/

/-- The `Link` value of the specification's scenario. -/
def scenarioLink : GoString :=
  "<cache1.example.org:8443>; pri=1, <cache2.example.org:8000>; pri=0".toList

/-- A director response with the `Link` header of the specification's scenario. -/
def scenarioResp : Response :=
  ⟨[("Link".toList, [scenarioLink])]⟩

/-- The endpoints and priorities that `scenarioLink` advertises, in header order. -/
def scenarioExpected : List (GoString × Int) :=
  [("cache1.example.org:8443".toList, 1), ("cache2.example.org:8000".toList, 0)]

/-- The descriptor of the scenario's cache on port 8443. -/
def scenarioAuthedCache : DirectorCache :=
  { EndpointUrl := "cache1.example.org:8443".toList, Priority := 1, AuthedReq := true }

/-- The descriptor list of the specification's scenario. -/
def scenarioCaches : List DirectorCache :=
  [{ EndpointUrl := "cache2.example.org:8000".toList, Priority := 0, AuthedReq := false },
   { EndpointUrl := "cache1.example.org:8443".toList, Priority := 1, AuthedReq := true }]

/-- A well-formed `Link` value with thirteen segments: twelve of priority 1, then one of
priority 0. -/
def tieLink : GoString :=
  ("<a.org:8000>; pri=1, <b.org:8000>; pri=1, <c.org:8000>; pri=1, <d.org:8000>; pri=1, " ++
    "<e.org:8000>; pri=1, <f.org:8000>; pri=1, <g.org:8000>; pri=1, <h.org:8000>; pri=1, " ++
    "<i.org:8000>; pri=1, <j.org:8000>; pri=1, <k.org:8000>; pri=1, <l.org:8000>; pri=1, " ++
    "<m.org:8000>; pri=0").toList

/-- A director response with `tieLink` as its `Link` header. -/
def tieResp : Response := ⟨[("Link".toList, [tieLink])]⟩

/-- The endpoints and priorities that `tieLink` advertises, in header order. -/
def tieExpected : List (GoString × Int) :=
  [("a.org:8000".toList, 1), ("b.org:8000".toList, 1), ("c.org:8000".toList, 1),
   ("d.org:8000".toList, 1), ("e.org:8000".toList, 1), ("f.org:8000".toList, 1),
   ("g.org:8000".toList, 1), ("h.org:8000".toList, 1), ("i.org:8000".toList, 1),
   ("j.org:8000".toList, 1), ("k.org:8000".toList, 1), ("l.org:8000".toList, 1),
   ("m.org:8000".toList, 0)]

/-- The descriptor for an endpoint on port 8000. -/
def plainCache (endpoint : String) (pri : Int) : DirectorCache :=
  { EndpointUrl := endpoint.toList, Priority := pri, AuthedReq := false }

/-- The descriptors of `tieLink` in header order. -/
def tieBuilt : List DirectorCache :=
  [plainCache "a.org:8000" 1, plainCache "b.org:8000" 1, plainCache "c.org:8000" 1,
   plainCache "d.org:8000" 1, plainCache "e.org:8000" 1, plainCache "f.org:8000" 1,
   plainCache "g.org:8000" 1, plainCache "h.org:8000" 1, plainCache "i.org:8000" 1,
   plainCache "j.org:8000" 1, plainCache "k.org:8000" 1, plainCache "l.org:8000" 1,
   plainCache "m.org:8000" 0]

/-- What `GetCachesFromDirectorResponse` returns for `tieLink` with the `sort.Slice` of
Go 1.19 and later: among the descriptors of priority 1, `g.org` has moved to the front
and `b.org` to the end, and `a.org` stands where `g.org` stood. -/
def tieSorted : List DirectorCache :=
  [plainCache "m.org:8000" 0, plainCache "g.org:8000" 1, plainCache "c.org:8000" 1,
   plainCache "d.org:8000" 1, plainCache "e.org:8000" 1, plainCache "f.org:8000" 1,
   plainCache "a.org:8000" 1, plainCache "h.org:8000" 1, plainCache "i.org:8000" 1,
   plainCache "j.org:8000" 1, plainCache "k.org:8000" 1, plainCache "l.org:8000" 1,
   plainCache "b.org:8000" 1]

/-- The descriptors of priority `p`, in the order of the list. -/
def withPriority (p : Int) (caches : List DirectorCache) : List DirectorCache :=
  caches.filter (fun c => decide (c.Priority = p))

/-- The boolean that the specification reads from an attribute: true for a value that
spells true, false for every other value and for a missing attribute. -/
def policyBool (value : Option GoString) : Bool :=
  match value with
  | none => false
  | some s => decide (s ∈ ["1".toList, "t".toList, "T".toList, "true".toList, "TRUE".toList,
      "True".toList])

/-- The `X-Osdf-Authorization` header is absent, or its first value is a `Key=Value`
list with plain keys and values. -/
def AuthorizationAbsentOrPlain (h : Header) : Prop :=
  h.Values "X-Osdf-Authorization".toList = [] ∨
    ∃ (akvs : List (GoString × GoString)) (arest : List GoString),
      h.Values "X-Osdf-Authorization".toList = renderPairs akvs :: arest ∧
      ∀ kv ∈ akvs, PlainToken kv.1 ∧ PlainToken kv.2

/-- The response of the namespace scenario: its `X-Osdf-Namespace` header and the `Link`
header of the cache scenario. -/
def scenarioNamespaceResp : Response :=
  ⟨[("X-Osdf-Namespace".toList,
      ["Namespace=/foo/bar,UseTokenOnRead=true,ReadHTTPS=false".toList]),
    ("Link".toList, [scenarioLink])]⟩

/-- The pairs of the namespace scenario. -/
def scenarioPairs : List (GoString × GoString) :=
  [("Namespace".toList, "/foo/bar".toList), ("UseTokenOnRead".toList, "true".toList),
   ("ReadHTTPS".toList, "false".toList)]

/-- The response of the namespace scenario with an `X-Osdf-Authorization` header. -/
def scenarioIssuerResp : Response :=
  ⟨[("X-Osdf-Namespace".toList,
      ["Namespace=/foo/bar,UseTokenOnRead=true,ReadHTTPS=false".toList]),
    ("X-Osdf-Authorization".toList, ["Issuer=https://issuer.example.org".toList]),
    ("Link".toList, [scenarioLink])]⟩

/-- A `Link` value whose segment advertises a host without port. -/
def noPortLink : GoString := "<host.example.org>; pri=0".toList

/-- A `Link` value whose segment advertises a full URL on port 8443. -/
def fullUrlLink : GoString := "<https://cache1.example.org:8443>; pri=0".toList

/-- A response with a well-formed `X-Osdf-Namespace` header and no `Link` header. -/
def noLinkResp : Response :=
  ⟨[("X-Osdf-Namespace".toList,
      ["Namespace=/foo/bar,UseTokenOnRead=true,ReadHTTPS=false".toList])]⟩

/-- The `Link` value advertises, in header order, the endpoints and priorities of
`expected`: every segment is `<host:port>`, followed or not by a `pri` token with any
text. -/
def LinkAdvertises (link : GoString) (expected : List (GoString × Int)) : Prop :=
  List.Forall₂
    (fun seg d => (∃ host port : GoString, d.1 = host ++ ':' :: port) ∧ SegmentShape seg d.1 d.2)
    (stringsSplit ',' link) expected

/-- A `Link` value whose `pri` token is not an integer. -/
def badPriLink : GoString := "<cache1.example.org:8443>; pri=abc".toList

/-- A director response with `badPriLink` as its `Link` header. -/
def badPriResp : Response := ⟨[("Link".toList, [badPriLink])]⟩

/-- The segment `seg'` is the segment `seg` with one more semicolon-separated token,
`rel=t`, put before, between or after the tokens of `seg`. -/
def RelAdded (seg seg' : GoString) : Prop :=
  ∃ (pre post : List GoString) (t : GoString),
    stringsSplit ';' (removeSpaces seg) = pre ++ post ∧
    stringsSplit ';' (removeSpaces seg') = pre ++ ("rel=".toList ++ t) :: post

/-- The scenario's `Link` value with a `rel` token in each segment, once at the end and
once between the endpoint and the priority. -/
def scenarioRelLink : GoString :=
  ("<cache1.example.org:8443>; pri=1; rel=duplicate, " ++
    "<cache2.example.org:8000>; rel=duplicate; pri=0").toList

/-- A director response with `scenarioRelLink` as its `Link` header. -/
def scenarioRelResp : Response := ⟨[("Link".toList, [scenarioRelLink])]⟩

/-! ## Lemmas on the embedding -/

theorem priorityLess_strictWeak : StrictWeakOrdering priorityLess where
  irrefl := fun a => by simp [priorityLess]
  trans := fun a b c => by
    simp only [priorityLess, decide_eq_true_eq]
    intro h1 h2
    exact lt_trans h1 h2
  negTrans := fun a b c => by
    simp only [priorityLess, decide_eq_false_iff_not, not_lt]
    intro h1 h2
    exact le_trans h2 h1

theorem stringsSplit_ne_nil (sep : Char) (s : GoString) : stringsSplit sep s ≠ [] := by
  cases s with
  | nil => simp [stringsSplit]
  | cons c cs =>
    unfold stringsSplit
    split
    · simp
    · split <;> simp

theorem stringsSplit_of_not_mem (sep : Char) (s : GoString) (h : sep ∉ s) :
    stringsSplit sep s = [s] := by
  induction s with
  | nil => rfl
  | cons c cs ih =>
    have hc : ¬ c = sep := fun e => h (by simp [e])
    have hcs : sep ∉ cs := fun e => h (by simp [e])
    simp [stringsSplit, hc, ih hcs]

theorem stringsSplit_append (sep : Char) (a b : GoString) (h : sep ∉ a) :
    stringsSplit sep (a ++ sep :: b) = a :: stringsSplit sep b := by
  induction a with
  | nil => simp [stringsSplit]
  | cons c cs ih =>
    have hc : ¬ c = sep := fun e => h (by simp [e])
    have hcs : sep ∉ cs := fun e => h (by simp [e])
    simp [stringsSplit, hc, ih hcs]

/-- The segments of a returning `cachesLoop` each gave one cache, appended in order. -/
theorem cachesLoop_ok_iff (segs : List GoString) :
    ∀ (acc out : List DirectorCache), cachesLoop segs acc = .ok out ↔
      ∃ built, List.Forall₂ (fun seg c => cacheFromLinks seg = .ok c) segs built ∧
        out = acc ++ built := by
  induction segs with
  | nil =>
    intro acc out
    simp only [cachesLoop, Except.ok.injEq]
    constructor
    · intro h
      exact ⟨[], List.Forall₂.nil, by simp [h]⟩
    · rintro ⟨built, hb, rfl⟩
      cases hb
      simp
  | cons seg segs ih =>
    intro acc out
    unfold cachesLoop
    constructor
    · intro h
      split at h
      · exact absurd h (by simp)
      · rename_i c hc
        obtain ⟨built, hb, rfl⟩ := (ih _ _).mp h
        exact ⟨c :: built, List.Forall₂.cons hc hb, by simp⟩
    · rintro ⟨built, hb, rfl⟩
      cases hb with
      | cons hc hb =>
        rename_i c built
        rw [hc]
        exact (ih _ _).mpr ⟨built, hb, by simp⟩

theorem cachesLoop_nil_ok_iff (segs : List GoString) (out : List DirectorCache) :
    cachesLoop segs [] = .ok out ↔
      List.Forall₂ (fun seg c => cacheFromLinks seg = .ok c) segs out := by
  rw [cachesLoop_ok_iff]
  constructor
  · rintro ⟨built, hb, rfl⟩
    simpa using hb
  · intro h
    exact ⟨out, h, by simp⟩

/-- What a returning `cacheFromLinks` computed. -/
theorem cacheFromLinks_ok_inv (seg : GoString) (c : DirectorCache)
    (h : cacheFromLinks seg = .ok c) :
    ∃ port, goIndex (stringsSplit ':' c.EndpointUrl) 1 = .ok port ∧
      linkTokensLoop (stringsSplit ';' (removeSpaces seg)) [] 0 = .ok (c.EndpointUrl, c.Priority) ∧
      c.AuthedReq = decide (port = "8443".toList) ∧ c.ResourceName = [] := by
  unfold cacheFromLinks at h
  simp only at h
  split at h
  · exact absurd h (by simp)
  · rename_i endpoint pri hl
    split at h
    · exact absurd h (by simp)
    · rename_i port hp
      injection h with h
      subst h
      refine ⟨port, hp, hl, ?_, ?_⟩
      · by_cases h1 : port = "8000".toList
        · subst h1
          rfl
        · by_cases h2 : port = "8443".toList
          · subst h2
            rfl
          · rw [if_neg h1, if_neg h2]
            exact (decide_eq_false h2).symm
      · split_ifs <;> rfl

/-- What a returning call of `GetCachesFromDirectorResponse` computed: the first `Link`
value, the caches built from its segments, and the sorted slice. -/
theorem getCaches_ok_inv (S : SliceSorter) (resp : Response) (caches : List DirectorCache)
    (err : Option GoError) (h : GetCachesFromDirectorResponse S resp = .ok (caches, err)) :
    ∃ link0 built, goIndex (resp.Header.Values "Link".toList) 0 = .ok link0 ∧
      cachesLoop (stringsSplit ',' link0) [] = .ok built ∧
      caches = S.sort priorityLess built ∧ err = none := by
  unfold GetCachesFromDirectorResponse at h
  simp only at h
  split at h
  · exact absurd h (by simp)
  · rename_i link0 hl
    split at h
    · exact absurd h (by simp)
    · rename_i built hb
      refine ⟨link0, built, hl, hb, ?_, ?_⟩
      · injection h with h
        exact (congrArg Prod.fst h).symm
      · injection h with h
        exact (congrArg Prod.snd h).symm

theorem digit_toNat (c : Char) (h : '0' ≤ c ∧ c ≤ '9') : 48 ≤ c.toNat ∧ c.toNat ≤ 57 := by
  obtain ⟨h1, h2⟩ := h
  have h1' : '0'.toNat ≤ c.toNat := h1
  have h2' : c.toNat ≤ '9'.toNat := h2
  exact ⟨h1', h2'⟩

theorem decimalValueFrom_ge (ds : GoString) : ∀ n, n ≤ decimalValueFrom n ds := by
  induction ds with
  | nil => intro n; exact le_refl _
  | cons c cs ih =>
    intro n
    have := ih (n * 10 + (c.toNat - '0'.toNat))
    simp only [decimalValueFrom, List.foldl_cons] at this ⊢
    omega

theorem atoiFastLoop_digits (ds : GoString) (hd : ∀ c ∈ ds, '0' ≤ c ∧ c ≤ '9') :
    ∀ n : Nat, atoiFastLoop ds (n : Int) = some ((decimalValueFrom n ds : Nat) : Int) := by
  induction ds with
  | nil => intro n; rfl
  | cons c cs ih =>
    intro n
    have hc := digit_toNat c (hd c (List.mem_cons_self _ _))
    have h0 : '0'.toNat = 48 := rfl
    have ih' := ih (fun x hx => hd x (List.mem_cons_of_mem _ hx)) (n * 10 + (c.toNat - '0'.toNat))
    simp only [atoiFastLoop, decimalValueFrom, List.foldl_cons] at ih' ⊢
    have hd1 : (c.toNat + 256 - '0'.toNat) % 256 = c.toNat - '0'.toNat := by omega
    rw [hd1, if_neg (by omega)]
    rw [← ih']
    congr 1

theorem parseUintLoop_digits (ds : GoString) (hd : ∀ c ∈ ds, '0' ≤ c ∧ c ≤ '9') :
    ∀ n : Nat, decimalValueFrom n ds ≤ maxUint64 →
      parseUintLoop ds n = (decimalValueFrom n ds, none) := by
  induction ds with
  | nil => intro n _; rfl
  | cons c cs ih =>
    intro n hle
    have hc := hd c (List.mem_cons_self _ _)
    have hcn := digit_toNat c hc
    have h0 : '0'.toNat = 48 := rfl
    have hm : maxUint64 = 18446744073709551615 := rfl
    have hge := decimalValueFrom_ge cs (n * 10 + (c.toNat - '0'.toNat))
    have hle' : decimalValueFrom (n * 10 + (c.toNat - '0'.toNat)) cs ≤ maxUint64 := hle
    have ih' := ih (fun x hx => hd x (List.mem_cons_of_mem _ hx)) _ hle'
    unfold parseUintLoop
    rw [if_pos hc]
    simp only
    rw [if_neg (by omega)]
    have e1 : n * 10 % 2 ^ 64 = n * 10 := Nat.mod_eq_of_lt (by omega)
    have e2 : (n * 10 + (c.toNat - '0'.toNat)) % 2 ^ 64 = n * 10 + (c.toNat - '0'.toNat) :=
      Nat.mod_eq_of_lt (by omega)
    rw [e1, e2, if_neg (by omega), ih']
    rfl

theorem parseUint_digits (ds : GoString) (hne : ds ≠ []) (hd : ∀ c ∈ ds, '0' ≤ c ∧ c ≤ '9')
    (hle : decimalValueFrom 0 ds ≤ maxUint64) :
    ParseUint ds = (decimalValueFrom 0 ds, none) := by
  unfold ParseUint
  rw [if_neg hne]
  exact parseUintLoop_digits ds hd 0 hle

theorem atoi_of_isIntLiteral (d : GoString) (p : Int) (h : IsIntLiteral d p) :
    Atoi d = (p, none) := by
  obtain ⟨ds, hne, hd, hform, hlo, hhi⟩ := h
  have hm : maxUint64 = 18446744073709551615 := rfl
  obtain ⟨c0, cs0, rfl⟩ := List.exists_cons_of_ne_nil hne
  have hc0 := hd c0 (List.mem_cons_self _ _)
  have hc0n := digit_toNat c0 hc0
  have hminus : ¬ c0 = '-' := by
    rintro rfl
    revert hc0n
    decide
  have hplus : ¬ c0 = '+' := by
    rintro rfl
    revert hc0n
    decide
  have hfast := atoiFastLoop_digits (c0 :: cs0) hd 0
  rcases hform with ⟨hshape, hp⟩ | ⟨hshape, hp⟩
  · have hle : decimalValueFrom 0 (c0 :: cs0) ≤ maxUint64 := by omega
    have hslow := parseUint_digits (c0 :: cs0) hne hd hle
    rcases hshape with rfl | rfl
    · unfold Atoi
      split
      · simp only [hminus, hplus, or_self, if_false]
        rw [if_neg (by simp)]
        simp only [Nat.cast_zero] at hfast
        rw [hfast, hp]
      · unfold ParseInt
        simp only [hminus, hplus, or_self, if_false, hslow]
        rw [if_neg (by simp), if_neg (by simp; omega), if_neg (by simp), hp]
    · unfold Atoi
      split
      · simp only [show ¬ ('+' = '-') by decide, true_or, or_true, if_true, if_false]
        rw [if_neg (by simp)]
        simp only [Nat.cast_zero] at hfast
        rw [hfast, hp]
      · unfold ParseInt
        simp only [show ¬ ('+' = '-') by decide, true_or, or_true, if_true, if_false, hslow]
        rw [if_neg (by simp), if_neg (by simp; omega), if_neg (by simp), hp]
  · have hle : decimalValueFrom 0 (c0 :: cs0) ≤ maxUint64 := by omega
    have hslow := parseUint_digits (c0 :: cs0) hne hd hle
    subst hshape
    unfold Atoi
    split
    · simp only [true_or, or_true, if_true]
      rw [if_neg (by simp)]
      simp only [Nat.cast_zero] at hfast
      rw [hfast, hp]
    · unfold ParseInt
      simp only [true_or, or_true, if_true, hslow]
      rw [if_neg (by simp), if_neg (by simp), if_neg (by simp; omega), hp]

theorem goSlice_bracket (e : GoString) :
    goSlice ('<' :: e ++ ">".toList) 1 ((('<' :: e ++ ">".toList).length : Int) - 1) = .ok e := by
  unfold goSlice
  have hlen : (('<' :: e ++ ">".toList).length : Int) = (e.length : Int) + 2 := by
    simp
    ring
  rw [hlen, if_pos (by omega)]
  have h1 : ((e.length : Int) + 2 - 1).toNat = e.length + 1 := by omega
  rw [h1]
  simp

theorem goSliceFrom_pri (d : GoString) : goSliceFrom ("pri=".toList ++ d) 4 = .ok d := by
  unfold goSliceFrom goSlice
  have hlen : (("pri=".toList ++ d).length : Int) = (d.length : Int) + 4 := by
    simp
    ring
  rw [hlen, if_pos (by omega)]
  have h1 : ((d.length : Int) + 4).toNat = d.length + 4 := by omega
  rw [h1]
  simp

theorem isIntLiteral_no_semicolon (d : GoString) (p : Int) (h : IsIntLiteral d p) :
    ';' ∉ d := by
  obtain ⟨ds, -, hd, hform, -, -⟩ := h
  have hds : ';' ∉ ds := fun hm => by
    have := digit_toNat _ (hd _ hm)
    revert this
    decide
  rcases hform with ⟨rfl | rfl, -⟩ | ⟨rfl, -⟩
  · exact hds
  · simpa using hds
  · simpa using hds

theorem stringsSplit_length (sep : Char) (s : GoString) :
    (stringsSplit sep s).length = s.count sep + 1 := by
  induction s with
  | nil => rfl
  | cons c cs ih =>
    unfold stringsSplit
    by_cases hc : c = sep
    · subst hc
      simp [ih]
    · rw [if_neg hc]
      have hne := stringsSplit_ne_nil sep cs
      cases hsp : stringsSplit sep cs with
      | nil => exact absurd hsp hne
      | cons w ws =>
        rw [hsp] at ih
        simp only [List.length_cons] at ih ⊢
        rw [List.count_cons_of_ne (Ne.symm hc)]
        exact ih

theorem goIndex_split_one (e host port : GoString) (h : e = host ++ ':' :: port) :
    ∃ x, goIndex (stringsSplit ':' e) 1 = .ok x := by
  have hlen := stringsSplit_length ':' e
  have hc : 0 < e.count ':' := by
    rw [h]
    simp
  unfold goIndex
  cases hg : (stringsSplit ':' e).get? 1 with
  | none =>
    rw [List.get?_eq_none] at hg
    omega
  | some x => exact ⟨x, rfl⟩

theorem cacheFromLinks_of_describes (seg e : GoString) (p : Int)
    (h : SegmentDescribes seg e p) :
    ∃ c, cacheFromLinks seg = .ok c ∧ c.EndpointUrl = e ∧ c.Priority = p := by
  obtain ⟨⟨host, port, he⟩, hsemi, hshape⟩ := h
  obtain ⟨x, hx⟩ := goIndex_split_one e host port he
  have htok : linkTokensLoop (stringsSplit ';' (removeSpaces seg)) [] 0 = .ok (e, p) := by
    rcases hshape with ⟨hs, rfl⟩ | ⟨d, hs, hd⟩
    · rw [hs, stringsSplit_of_not_mem _ _ (by simpa using hsemi)]
      unfold linkTokensLoop
      rw [if_pos (by simp [stringsHasPrefix]), goSlice_bracket]
      rfl
    · have hsplit : stringsSplit ';' (removeSpaces seg) =
          ['<' :: e ++ ">".toList, "pri=".toList ++ d] := by
        rw [hs]
        have : '<' :: e ++ ">;pri=".toList ++ d =
            ('<' :: e ++ ">".toList) ++ ';' :: ("pri=".toList ++ d) := by simp
        rw [this, stringsSplit_append _ _ _ (by simpa using hsemi),
          stringsSplit_of_not_mem _ _ (by
            have := isIntLiteral_no_semicolon d p hd
            simpa using this)]
      rw [hsplit]
      unfold linkTokensLoop
      rw [if_pos (by simp [stringsHasPrefix]), goSlice_bracket]
      simp only
      unfold linkTokensLoop
      rw [if_neg (by simp [stringsHasPrefix]), if_pos (by simp [stringsHasPrefix]),
        goSliceFrom_pri]
      simp only [atoi_of_isIntLiteral d p hd]
      rfl
  unfold cacheFromLinks
  simp only [htok, hx]
  exact ⟨_, rfl, rfl, rfl⟩

theorem sort_pair (S : SliceSorter) {α : Type} (less : α → α → Bool)
    (hless : StrictWeakOrdering less) (a b : α) (hba : less b a = true) :
    S.sort less [a, b] = [b, a] := by
  have hp := S.perm less [a, b]
  have hs := S.sorted less [a, b] hless
  have hlen := hp.length_eq
  match hl : S.sort less [a, b], hlen with
  | [x, y], _ =>
    rw [hl] at hp hs
    have hx : x = a ∨ x = b := by
      have : x ∈ [a, b] := hp.subset (by simp)
      simpa using this
    have hy : y = a ∨ y = b := by
      have : y ∈ [a, b] := hp.subset (by simp)
      simpa using this
    have ha : a = x ∨ a = y := by
      have : a ∈ [x, y] := hp.symm.subset (by simp)
      simpa using this
    have hb : b = x ∨ b = y := by
      have : b ∈ [x, y] := hp.symm.subset (by simp)
      simpa using this
    have hyx : less y x = false := by
      simpa using hs
    have hne : a ≠ b := by
      rintro rfl
      rw [hless.irrefl] at hba
      exact absurd hba (by decide)
    rcases hx with rfl | rfl <;> rcases hy with rfl | rfl
    · rcases hb with h | h <;> exact absurd h.symm hne
    · rw [hba] at hyx
      exact absurd hyx (by decide)
    · rfl
    · rcases ha with h | h <;> exact absurd h hne

theorem cachesLoop_of_describes (segs : List GoString) (expected : List (GoString × Int))
    (h : List.Forall₂ (fun seg d => SegmentDescribes seg d.1 d.2) segs expected) :
    ∃ built, cachesLoop segs [] = .ok built ∧
      built.map (fun c => (c.EndpointUrl, c.Priority)) = expected := by
  suffices hs : ∃ built,
      List.Forall₂ (fun seg c => cacheFromLinks seg = .ok c) segs built ∧
        built.map (fun c => (c.EndpointUrl, c.Priority)) = expected by
    obtain ⟨built, hb, he⟩ := hs
    exact ⟨built, (cachesLoop_nil_ok_iff _ _).mpr hb, he⟩
  induction h with
  | nil => exact ⟨[], List.Forall₂.nil, rfl⟩
  | cons hx _ ih =>
    obtain ⟨built, hb, he⟩ := ih
    obtain ⟨c, hc, h1, h2⟩ := cacheFromLinks_of_describes _ _ _ hx
    refine ⟨c :: built, List.Forall₂.cons hc hb, ?_⟩
    simp [he, h1, h2]

theorem segmentDescribes_pri (seg host port d : GoString) (p : Int)
    (hseg : removeSpaces seg = '<' :: (host ++ ':' :: port) ++ ">;pri=".toList ++ d)
    (hsemi : ';' ∉ host ++ ':' :: port) (hd : IsIntLiteral d p) :
    SegmentDescribes seg (host ++ ':' :: port) p :=
  ⟨⟨host, port, rfl⟩, hsemi, Or.inr ⟨d, hseg, hd⟩⟩

theorem isIntLiteral_digit (c : Char) (hc : '0' ≤ c ∧ c ≤ '9') :
    IsIntLiteral [c] ((c.toNat - '0'.toNat : Nat) : Int) := by
  have := digit_toNat c hc
  refine ⟨[c], by simp, by simpa using hc, Or.inl ⟨Or.inl rfl, by simp [decimalValueFrom]⟩, ?_, ?_⟩
  · have : (0 : Int) ≤ ((c.toNat - '0'.toNat : Nat) : Int) := Int.natCast_nonneg _
    omega
  · have h0 : '0'.toNat = 48 := rfl
    omega

theorem tieLink_describes : LinkDescribes tieLink tieExpected := by
  have h1 : IsIntLiteral "1".toList 1 := isIntLiteral_digit '1' (by decide)
  have h0 : IsIntLiteral "0".toList 0 := isIntLiteral_digit '0' (by decide)
  refine List.Forall₂.cons ?_ (List.Forall₂.cons ?_ (List.Forall₂.cons ?_ (List.Forall₂.cons ?_
    (List.Forall₂.cons ?_ (List.Forall₂.cons ?_ (List.Forall₂.cons ?_ (List.Forall₂.cons ?_
    (List.Forall₂.cons ?_ (List.Forall₂.cons ?_ (List.Forall₂.cons ?_ (List.Forall₂.cons ?_
    (List.Forall₂.cons ?_ List.Forall₂.nil))))))))))))
  · exact segmentDescribes_pri _ "a.org".toList "8000".toList _ 1 rfl (by decide) h1
  · exact segmentDescribes_pri _ "b.org".toList "8000".toList _ 1 rfl (by decide) h1
  · exact segmentDescribes_pri _ "c.org".toList "8000".toList _ 1 rfl (by decide) h1
  · exact segmentDescribes_pri _ "d.org".toList "8000".toList _ 1 rfl (by decide) h1
  · exact segmentDescribes_pri _ "e.org".toList "8000".toList _ 1 rfl (by decide) h1
  · exact segmentDescribes_pri _ "f.org".toList "8000".toList _ 1 rfl (by decide) h1
  · exact segmentDescribes_pri _ "g.org".toList "8000".toList _ 1 rfl (by decide) h1
  · exact segmentDescribes_pri _ "h.org".toList "8000".toList _ 1 rfl (by decide) h1
  · exact segmentDescribes_pri _ "i.org".toList "8000".toList _ 1 rfl (by decide) h1
  · exact segmentDescribes_pri _ "j.org".toList "8000".toList _ 1 rfl (by decide) h1
  · exact segmentDescribes_pri _ "k.org".toList "8000".toList _ 1 rfl (by decide) h1
  · exact segmentDescribes_pri _ "l.org".toList "8000".toList _ 1 rfl (by decide) h1
  · exact segmentDescribes_pri _ "m.org".toList "8000".toList _ 0 rfl (by decide) h0

/-- A range of at most twelve elements is sorted by insertion. -/
theorem pdqsort_func_short {α : Type} (less : α → α → Bool) (next : Nat → Nat) (fuel : Nat)
    (data : List α) (a b limit : Nat) (wasBalanced wasPartitioned : Bool) (h : b - a ≤ 12) :
    pdqsort_func less next (fuel + 1) data a b limit wasBalanced wasPartitioned =
      some (insertionSort_func less data a b) := by
  unfold pdqsort_func
  simp only [h, if_true]

/-- One iteration of `pdqsort_func` from the start of the slice, entered with both flags
set: when the pivot is chosen without a swap, the partial insertion sort gives up and
the left part is the shorter one, the left part is sorted by a nested call and the loop
goes on with the right part. -/
theorem pdqsort_func_first {α : Type} (less : α → α → Bool) (next : Nat → Nat) (fuel : Nat)
    (data data1 data2 : List α) (b limit pivot mid : Nat) (alreadyPartitioned : Bool)
    (hlong : ¬ b - 0 ≤ 12) (hlimit : limit ≠ 0)
    (hpivot : choosePivot_func less data 0 b = (pivot, .increasingHint))
    (hgaveUp : partialInsertionSort_func less data 0 b = (data1, false))
    (hpartition : partition_func less data1 0 b pivot = (data2, mid, alreadyPartitioned))
    (hleft : mid - 0 < b - mid) :
    pdqsort_func less next (fuel + 1) data 0 b limit true true =
      match pdqsort_func less next fuel data2 0 mid limit true true with
      | none => none
      | some data3 =>
        pdqsort_func less next fuel data3 (mid + 1) b limit
          (decide (mid - 0 ≥ (b - 0) / 8)) alreadyPartitioned := by
  rw [pdqsort_func]
  dsimp only
  rw [if_neg hlong, if_neg hlimit]
  simp only [Bool.not_true, Bool.false_eq_true, if_false, hpivot]
  simp only [reduceCtorEq, if_false, Bool.and_self, decide_True, if_true, hgaveUp]
  simp only [Bool.false_eq_true, if_false, gt_iff_lt, Nat.lt_irrefl, decide_False,
    Bool.false_and, hpartition, hleft, if_true]

/-- What `sort.Slice` makes of the descriptors of `tieLink`. -/
theorem slice_tieBuilt (next : Nat → Nat) :
    Slice next priorityLess tieBuilt = some tieSorted := by
  have hpivot : choosePivot_func priorityLess tieBuilt 0 13 = (6, .increasingHint) := by
    decide!
  have hgaveUp : partialInsertionSort_func priorityLess tieBuilt 0 13 = (tieBuilt, false) := by
    decide!
  have hpartition : partition_func priorityLess tieBuilt 0 13 6 = (tieSorted, 1, false) := by
    decide!
  have hleft : insertionSort_func priorityLess tieSorted 0 1 = tieSorted := by decide!
  have hright : insertionSort_func priorityLess tieSorted 2 13 = tieSorted := by decide!
  have hstep := pdqsort_func_first priorityLess next 13 tieBuilt tieBuilt tieSorted 13 4 6 1
    false (by decide) (by decide) hpivot hgaveUp hpartition (by decide)
  rw [pdqsort_func_short priorityLess next 12 tieSorted 0 1 4 true true (by decide),
    hleft] at hstep
  have hlast := pdqsort_func_short priorityLess next 12 tieSorted (1 + 1) 13 4
    (decide (1 - 0 ≥ (13 - 0) / 8)) false (by decide)
  rw [hright] at hlast
  exact hstep.trans hlast

theorem pdqSorter_sort {α : Type} (next : Nat → Nat) (less : α → α → Bool) (l : List α) :
    (pdqSorter next).sort less l =
      match Slice next less l with
      | some r =>
        if r.Pairwise (fun a b => less b a = false) then r else insertionSortFunc less r
      | none => insertionSortFunc less l :=
  rfl

theorem pdqSorter_tieBuilt (next : Nat → Nat) :
    (pdqSorter next).sort priorityLess tieBuilt = tieSorted := by
  rw [pdqSorter_sort, slice_tieBuilt]
  exact if_pos (by decide!)

theorem getCaches_tieResp (next : Nat → Nat) :
    GetCachesFromDirectorResponse (pdqSorter next) tieResp = .ok (tieSorted, none) := by
  have hb : cachesLoop (stringsSplit ',' tieLink) [] = .ok tieBuilt := rfl
  have hl : tieResp.Header.Values "Link".toList = [tieLink] := rfl
  unfold GetCachesFromDirectorResponse
  simp only [hl, goIndex, List.get?_cons_zero, hb, pdqSorter_tieBuilt]

theorem removeSpaces_of_not_mem (s : GoString) (h : ' ' ∉ s) : removeSpaces s = s := by
  unfold removeSpaces
  rw [List.filter_eq_self]
  intro c hc
  have : c ≠ ' ' := fun e => h (e ▸ hc)
  simpa using this

theorem lookup_filter_ne (k k' : GoString) (hne : k' ≠ k) (l : List (GoString × GoString)) :
    (l.filter (fun p => p.1 != k)).lookup k' = l.lookup k' := by
  induction l with
  | nil => rfl
  | cons p l ih =>
    obtain ⟨a, b⟩ := p
    by_cases ha : a = k
    · subst ha
      have h1 : (k' == a) = false := by simpa using hne
      simp [List.filter_cons, List.lookup_cons, h1, ih]
    · have h2 : (a != k) = true := by simpa using ha
      simp only [List.filter_cons, h2, if_true, List.lookup_cons, ih]

theorem find?_set (m : GoMap) (k v k' : GoString) :
    (m.set k v).find? k' = if k' = k then some v else m.find? k' := by
  unfold GoMap.set GoMap.find?
  by_cases h : k' = k
  · subst h
    simp [List.lookup_cons]
  · have h1 : (k' == k) = false := by simpa using h
    simp only [List.lookup_cons, h1, if_neg h]
    exact lookup_filter_ne k k' h _

theorem keys_set (m : GoMap) (k v k' : GoString) :
    k' ∈ (m.set k v).keys ↔ k' = k ∨ k' ∈ m.keys := by
  unfold GoMap.set GoMap.keys
  simp only [List.map_cons, List.mem_cons, List.mem_map, List.mem_filter]
  constructor
  · rintro (h | ⟨p, ⟨hp, -⟩, rfl⟩)
    · exact Or.inl h
    · exact Or.inr ⟨p, hp, rfl⟩
  · rintro (h | ⟨p, hp, rfl⟩)
    · exact Or.inl h
    · by_cases hk : p.1 = k
      · exact Or.inl hk
      · exact Or.inr ⟨p, ⟨hp, by simpa using hk⟩, rfl⟩

theorem keys_setAll (kvs : List (GoString × GoString)) :
    ∀ (m : GoMap) (k : GoString),
      k ∈ (setAll m kvs).keys ↔ k ∈ m.keys ∨ k ∈ kvs.map Prod.fst := by
  induction kvs with
  | nil => intro m k; simp [setAll]
  | cons kv rest ih =>
    intro m k
    have := ih (m.set kv.1 kv.2) k
    simp only [setAll, List.foldl_cons] at this ⊢
    rw [this, keys_set]
    simp only [List.map_cons, List.mem_cons]
    tauto

theorem find?_setAll_of_not_mem (kvs : List (GoString × GoString)) :
    ∀ (m : GoMap) (k : GoString), k ∉ kvs.map Prod.fst →
      (setAll m kvs).find? k = m.find? k := by
  induction kvs with
  | nil => intro m k _; rfl
  | cons kv rest ih =>
    intro m k hk
    simp only [List.map_cons, List.mem_cons, not_or] at hk
    have := ih (m.set kv.1 kv.2) k hk.2
    simp only [setAll, List.foldl_cons] at this ⊢
    rw [this, find?_set, if_neg hk.1]

theorem find?_setAll_of_mem (kvs : List (GoString × GoString)) :
    ∀ (m : GoMap), (kvs.map Prod.fst).Nodup → ∀ kv ∈ kvs,
      (setAll m kvs).find? kv.1 = some kv.2 := by
  induction kvs with
  | nil => intro m _ kv h; simp at h
  | cons kv0 rest ih =>
    intro m hnd kv hkv
    simp only [List.map_cons, List.nodup_cons] at hnd
    rcases List.mem_cons.mp hkv with rfl | hmem
    · have := find?_setAll_of_not_mem rest (m.set kv.1 kv.2) kv.1 hnd.1
      simp only [setAll, List.foldl_cons] at this ⊢
      rw [this, find?_set, if_pos rfl]
    · have := ih (m.set kv0.1 kv0.2) hnd.2 kv hmem
      simpa only [setAll, List.foldl_cons] using this

theorem headerParserLoop_pairs (kvs : List (GoString × GoString))
    (h : ∀ kv ∈ kvs, PlainToken kv.1 ∧ PlainToken kv.2) :
    ∀ m : GoMap, headerParserLoop (kvs.map renderPair) m = .ok (setAll m kvs) := by
  induction kvs with
  | nil => intro m; rfl
  | cons kv rest ih =>
    intro m
    obtain ⟨⟨-, hk2, hk3⟩, ⟨-, hv2, hv3⟩⟩ := h kv (List.mem_cons_self _ _)
    have hsp : removeSpaces (renderPair kv) = renderPair kv :=
      removeSpaces_of_not_mem _ (by simp [renderPair, hk3, hv3])
    have hsplit : stringsSplit '=' (renderPair kv) = [kv.1, kv.2] := by
      unfold renderPair
      rw [stringsSplit_append _ _ _ hk2, stringsSplit_of_not_mem _ _ hv2]
    simp only [List.map_cons, headerParserLoop, hsp, hsplit, goIndex, List.get?_cons_zero,
      List.get?_cons_succ]
    exact ih (fun kv hkv => h kv (List.mem_cons_of_mem _ hkv)) _

theorem stringsSplit_renderPairs (kvs : List (GoString × GoString)) (hne : kvs ≠ [])
    (h : ∀ kv ∈ kvs, PlainToken kv.1 ∧ PlainToken kv.2) :
    stringsSplit ',' (renderPairs kvs) = kvs.map renderPair := by
  induction kvs with
  | nil => exact absurd rfl hne
  | cons kv rest ih =>
    obtain ⟨⟨hk1, -, -⟩, ⟨hv1, -, -⟩⟩ := h kv (List.mem_cons_self _ _)
    have hpair : ',' ∉ renderPair kv := by simp [renderPair, hk1, hv1]
    cases rest with
    | nil =>
      simp only [renderPairs, List.map_cons, List.map_nil]
      exact stringsSplit_of_not_mem _ _ hpair
    | cons kv1 rest1 =>
      have := ih (by simp) (fun kv hkv => h kv (List.mem_cons_of_mem _ hkv))
      simp only [renderPairs, List.map_cons] at this ⊢
      rw [stringsSplit_append _ _ _ hpair, this]

theorem renderPairs_ne_nil (kvs : List (GoString × GoString)) (hne : kvs ≠ []) :
    renderPairs kvs ≠ [] := by
  cases kvs with
  | nil => exact absurd rfl hne
  | cons kv rest =>
    cases rest <;> simp [renderPairs, renderPair]

theorem headerParser_renderPairs (kvs : List (GoString × GoString))
    (h : ∀ kv ∈ kvs, PlainToken kv.1 ∧ PlainToken kv.2) :
    HeaderParser (renderPairs kvs) = .ok (setAll GoMap.empty kvs, none) := by
  by_cases hne : kvs = []
  · subst hne
    rfl
  · unfold HeaderParser
    rw [if_neg (renderPairs_ne_nil kvs hne), stringsSplit_renderPairs kvs hne h,
      headerParserLoop_pairs kvs h]

theorem scenarioLink_describes : LinkDescribes scenarioLink scenarioExpected := by
  have h1 : IsIntLiteral "1".toList 1 := isIntLiteral_digit '1' (by decide)
  have h0 : IsIntLiteral "0".toList 0 := isIntLiteral_digit '0' (by decide)
  refine List.Forall₂.cons ?_ (List.Forall₂.cons ?_ List.Forall₂.nil)
  · exact segmentDescribes_pri _ "cache1.example.org".toList "8443".toList _ 1 rfl
      (by decide) h1
  · exact segmentDescribes_pri _ "cache2.example.org".toList "8000".toList _ 0 rfl
      (by decide) h0

theorem parseBool_fst (s : GoString) : (ParseBool s).1 = policyBool (some s) := by
  unfold ParseBool policyBool
  split_ifs with h1 h2
  · simp only [h1, decide_True]
  · simp only [h1, decide_False]
  · simp only [h1, decide_False]

theorem parseBool_nil : (ParseBool []).1 = false := rfl

theorem lookup_eq_none_of_not_mem (k : GoString) (l : List (GoString × GoString))
    (h : k ∉ l.map Prod.fst) : l.lookup k = none := by
  induction l with
  | nil => rfl
  | cons p l ih =>
    obtain ⟨a, b⟩ := p
    simp only [List.map_cons, List.mem_cons, not_or] at h
    have h1 : (k == a) = false := by simpa using h.1
    simp only [List.lookup_cons, h1]
    exact ih h.2

theorem find?_setAll_eq_lookup (kvs : List (GoString × GoString)) :
    ∀ (m : GoMap) (k : GoString), (kvs.map Prod.fst).Nodup →
      (setAll m kvs).find? k = ((kvs.lookup k).orElse fun _ => m.find? k) := by
  induction kvs with
  | nil => intro m k _; rfl
  | cons kv rest ih =>
    intro m k hnd
    simp only [List.map_cons, List.nodup_cons] at hnd
    have := ih (m.set kv.1 kv.2) k hnd.2
    simp only [setAll, List.foldl_cons] at this ⊢
    rw [this, find?_set]
    obtain ⟨a, b⟩ := kv
    by_cases hk : k = a
    · subst hk
      rw [lookup_eq_none_of_not_mem k rest hnd.1]
      simp [List.lookup_cons]
    · have h1 : (k == a) = false := by simpa using hk
      simp only [if_neg hk, List.lookup_cons, h1]

theorem get_setAll_empty (kvs : List (GoString × GoString)) (k : GoString)
    (hnd : (kvs.map Prod.fst).Nodup) :
    (setAll GoMap.empty kvs).get k = (kvs.lookup k).getD [] := by
  unfold GoMap.get
  rw [find?_setAll_eq_lookup kvs GoMap.empty k hnd]
  cases kvs.lookup k <;> rfl

theorem parseBool_get_setAll (kvs : List (GoString × GoString)) (k : GoString)
    (hnd : (kvs.map Prod.fst).Nodup) :
    (ParseBool ((setAll GoMap.empty kvs).get k)).1 = policyBool (kvs.lookup k) := by
  rw [get_setAll_empty kvs k hnd]
  cases kvs.lookup k with
  | none => rfl
  | some v => exact parseBool_fst v

theorem getCaches_of_describes (S : SliceSorter) (resp : Response) (link0 : GoString)
    (rest : List GoString) (expected : List (GoString × Int))
    (hlink : resp.Header.Values "Link".toList = link0 :: rest)
    (hwf : LinkDescribes link0 expected) :
    ∃ built, cachesLoop (stringsSplit ',' link0) [] = .ok built ∧
      built.map (fun c => (c.EndpointUrl, c.Priority)) = expected ∧
      GetCachesFromDirectorResponse S resp = .ok (S.sort priorityLess built, none) := by
  obtain ⟨built, hb, he⟩ := cachesLoop_of_describes _ _ hwf
  refine ⟨built, hb, he, ?_⟩
  unfold GetCachesFromDirectorResponse
  simp only [hlink, goIndex, List.get?_cons_zero, hb]

/-- The statements on `X-Osdf-Authorization` leave the policy fields alone. -/
theorem issuerFromAuthorization_frame (dirResp : Response) (ns ns1 : Namespace)
    (h : issuerFromAuthorization dirResp ns = .ok ns1) :
    ns1.Path = ns.Path ∧ ns1.UseTokenOnRead = ns.UseTokenOnRead ∧
      ns1.ReadHTTPS = ns.ReadHTTPS := by
  unfold issuerFromAuthorization at h
  split at h
  · split at h
    · exact absurd h (by simp)
    · split at h
      · exact absurd h (by simp)
      · injection h with h
        subst h
        exact ⟨rfl, rfl, rfl⟩
  · injection h with h
    subst h
    exact ⟨rfl, rfl, rfl⟩

theorem issuerFromAuthorization_ok (dirResp : Response) (ns : Namespace)
    (hauth : AuthorizationAbsentOrPlain dirResp.Header) :
    ∃ ns1, issuerFromAuthorization dirResp ns = .ok ns1 ∧
      (dirResp.Header.Values "X-Osdf-Authorization".toList = [] → ns1 = ns) := by
  unfold issuerFromAuthorization
  rcases hauth with ha | ⟨akvs, arest, ha, hplain⟩
  · rw [ha]
    exact ⟨ns, rfl, fun _ => rfl⟩
  · rw [ha]
    simp only [goIndex, List.get?_cons_zero, List.length_cons,
      headerParser_renderPairs akvs hplain]
    rw [if_pos (Nat.succ_pos _)]
    exact ⟨_, rfl, fun h => absurd h (by simp)⟩

theorem hostnameByte_cases (c : Char) (h : hostnameByte c = true) :
    (97 ≤ c.toNat ∧ c.toNat ≤ 122) ∨ (65 ≤ c.toNat ∧ c.toNat ≤ 90) ∨
      (48 ≤ c.toNat ∧ c.toNat ≤ 57) ∨ c = '-' ∨ c = '.' := by
  unfold hostnameByte at h
  simp only [Bool.or_eq_true, decide_eq_true_eq] at h
  rcases h with ((⟨h1, h2⟩ | ⟨h1, h2⟩ | ⟨h1, h2⟩) | h) | h
  · exact Or.inl ⟨h1, h2⟩
  · exact Or.inr (Or.inl ⟨h1, h2⟩)
  · exact Or.inr (Or.inr (Or.inl ⟨h1, h2⟩))
  · exact Or.inr (Or.inr (Or.inr (Or.inl h)))
  · exact Or.inr (Or.inr (Or.inr (Or.inr h)))

/-- A host name byte is none of the bytes that `url.Parse` gives a meaning to. -/
theorem hostnameByte_ne (c : Char) (h : hostnameByte c = true) (d : Char)
    (hd : d.toNat < 45 ∨ d.toNat = 47 ∨ d.toNat = 58 ∨ d.toNat = 63) : c ≠ d := by
  rintro rfl
  rcases hostnameByte_cases c h with h1 | h1 | h1 | rfl | rfl
  · omega
  · omega
  · omega
  · revert hd; decide
  · revert hd; decide

theorem shouldEscape_hostnameByte (c : Char) (h : hostnameByte c = true) :
    shouldEscape c .encodePath = false := by
  unfold hostnameByte at h
  simp only [Bool.or_eq_true, decide_eq_true_eq] at h
  rcases h with (h | rfl) | rfl
  · unfold shouldEscape
    rw [if_pos h]
  · decide
  · decide

theorem stringsCut_of_not_mem (sep : Char) (s : GoString) (h : sep ∉ s) :
    stringsCut sep s = (s, [], false) := by
  induction s with
  | nil => rfl
  | cons c cs ih =>
    have hc : ¬ c = sep := fun e => h (by simp [e])
    have hcs : sep ∉ cs := fun e => h (by simp [e])
    simp [stringsCut, hc, ih hcs]

theorem getSchemeLoop_of_no_colon (r s : GoString) (h : ':' ∉ s) :
    ∀ i, getSchemeLoop r s i = .ok ([], r) := by
  induction s with
  | nil => intro i; rfl
  | cons c cs ih =>
    intro i
    have hc : ¬ c = ':' := fun e => h (by simp [e])
    have hcs : ':' ∉ cs := fun e => h (by simp [e])
    unfold getSchemeLoop
    split_ifs <;> first | rfl | exact ih hcs _

theorem unescapeScan_plain (mode : Encoding) (hm : mode = .encodePath) (s : GoString)
    (h : ∀ c ∈ s, c ≠ '%' ∧ c ≠ '+') :
    ∀ n hp, unescapeScan mode s n hp = .ok (n, hp) := by
  subst hm
  induction s with
  | nil => intro n hp; rfl
  | cons c cs ih =>
    intro n hp
    obtain ⟨h1, h2⟩ := h c (List.mem_cons_self _ _)
    have ih' := ih (fun x hx => h x (List.mem_cons_of_mem _ hx))
    unfold unescapeScan
    split
    · rename_i heq
      simp at heq
    · rename_i heq
      injection heq with e1 e2
      exact absurd e1 h1
    · rename_i heq
      injection heq with e1 e2
      subst e1 e2
      rw [if_neg h2, if_neg (by simp)]
      exact ih' _ _

theorem escape_of_no_escape (mode : Encoding) (s : GoString)
    (h : ∀ c ∈ s, shouldEscape c mode = false) : escape s mode = s := by
  unfold escape
  induction s with
  | nil => rfl
  | cons c cs ih =>
    rw [List.flatMap_cons, ih (fun x hx => h x (List.mem_cons_of_mem _ hx)),
      h c (List.mem_cons_self _ _)]
    rfl

/-- What `url.Parse` makes of a bare host name: an URL with the name as its path. -/
theorem urlParse_bareHostname (h : GoString) (hb : BareHostname h) :
    urlParse h = .ok { Path := h } := by
  have hne : ∀ (d : Char), (d.toNat < 45 ∨ d.toNat = 47 ∨ d.toNat = 58 ∨ d.toNat = 63) →
      d ∉ h := fun d hd hm => hostnameByte_ne d (hb d hm) d hd rfl
  have hhash : '#' ∉ h := hne '#' (by decide)
  have hq : '?' ∉ h := hne '?' (by decide)
  have hcolon : ':' ∉ h := hne ':' (by decide)
  have hslash : '/' ∉ h := hne '/' (by decide)
  have hpct : '%' ∉ h := hne '%' (by decide)
  have hplus : '+' ∉ h := hne '+' (by decide)
  have hstar : h ≠ "*".toList := by
    rintro rfl
    exact hne '*' (by decide) (by decide)
  have hctl : stringContainsCTLByte h = false := by
    unfold stringContainsCTLByte
    rw [List.any_eq_false]
    intro c hc
    have := hostnameByte_cases c (hb c hc)
    have h32 : ' '.toNat = 32 := rfl
    rcases this with h1 | h1 | h1 | rfl | rfl
    · simp; omega
    · simp; omega
    · simp; omega
    · decide
    · decide
  have hpre : ∀ p : GoString, p ≠ [] → p.head? = some '/' → stringsHasPrefix h p = false := by
    intro p hp hhead
    cases p with
    | nil => exact absurd rfl hp
    | cons a as =>
      simp only [List.head?_cons, Option.some.injEq] at hhead
      subst hhead
      cases h with
      | nil => rfl
      | cons c cs =>
        have : c ≠ '/' := fun e => hslash (by simp [e])
        simp [stringsHasPrefix, List.isPrefixOf, this.symm]
  have hscan := unescapeScan_plain .encodePath rfl h
    (fun c hc => ⟨fun e => hpct (e ▸ hc), fun e => hplus (e ▸ hc)⟩) 0 false
  have hesc := escape_of_no_escape .encodePath h
    (fun c hc => shouldEscape_hostnameByte c (hb c hc))
  have hpath : URL.setPath {} h = .ok { Path := h } := by
    unfold URL.setPath unescape
    rw [hscan]
    simp only [and_self, if_true, hesc]
  unfold urlParse
  rw [stringsCut_of_not_mem '#' h hhash]
  simp only
  have hfq : ¬ (h.getLast? = some '?' ∧ h.count '?' = 1) := by
    rintro ⟨-, h2⟩
    rw [List.count_eq_zero_of_not_mem hq] at h2
    exact absurd h2 (by decide)
  have hp1 : stringsHasPrefix h "/".toList = false := hpre _ (by decide) rfl
  have hp2 : stringsHasPrefix h "//".toList = false := hpre _ (by decide) rfl
  have hnf : urlParseNoFragment h = .ok { Path := h } := by
    unfold urlParseNoFragment
    rw [hctl, if_neg (by simp), if_neg hstar]
    unfold getScheme
    rw [getSchemeLoop_of_no_colon h h hcolon 0]
    simp only [if_neg hfq, stringsCut_of_not_mem '?' h hq, stringsCut_of_not_mem '/' h hslash,
      hp1, hp2]
    rw [show asciiToLower [] = [] from rfl]
    simp only [ne_eq, not_true_eq_false, and_false, false_and, hcolon, Bool.false_eq_true,
      if_false]
    exact hpath
  rw [hnf]
  rfl

theorem goSlice_strip_port (host port : GoString) (hp : port.length = 5) :
    goSlice (host ++ port) 0 (((host ++ port).length : Int) - 5) = .ok host := by
  unfold goSlice
  have hlen : ((host ++ port).length : Int) = (host.length : Int) + 5 := by
    simp [hp]
  rw [hlen, if_pos (by omega)]
  have h1 : ((host.length : Int) + 5 - 5).toNat = host.length := by omega
  rw [h1]
  simp

/-- The HTTPS branch after a successful `url.Parse`. -/
theorem newTransferDetails_https_eq (env : Env) (cache : DirectorCache) (u : URL)
    (hparse : urlParse cache.EndpointUrl = .ok u) :
    NewTransferDetailsUsingDirector env cache true =
      if env.HasPort (assumeHostname u cache.EndpointUrl).Host = true then
        .ok [{ Url := { assumeHostname u cache.EndpointUrl with Scheme := "https".toList },
               Proxy := false }]
      else
        .ok [{ Url := { assumeHostname u cache.EndpointUrl with
                 Scheme := "https".toList
                 Host := (assumeHostname u cache.EndpointUrl).Host ++ ":8444".toList },
               Proxy := false },
             { Url := { assumeHostname u cache.EndpointUrl with
                 Scheme := "https".toList
                 Host := (assumeHostname u cache.EndpointUrl).Host ++ ":8443".toList },
               Proxy := false }] := by
  unfold NewTransferDetailsUsingDirector
  simp only [hparse, if_true]
  cases hport : env.HasPort (assumeHostname u cache.EndpointUrl).Host
  · simp only [Bool.false_eq_true, not_false_eq_true, if_true, if_false,
      goSlice_strip_port _ ":8444".toList rfl, List.nil_append, List.cons_append]
  · simp only [not_true_eq_false, if_false, if_true, List.nil_append]

/-- The plaintext branch after a successful `url.Parse`. -/
theorem newTransferDetails_http_eq (env : Env) (cache : DirectorCache) (u : URL)
    (hparse : urlParse cache.EndpointUrl = .ok u) :
    NewTransferDetailsUsingDirector env cache false =
      .ok ({ Url := { assumeHostname u cache.EndpointUrl with
              Scheme := "http".toList
              Host :=
                if env.HasPort (assumeHostname u cache.EndpointUrl).Host = true then
                  (assumeHostname u cache.EndpointUrl).Host
                else (assumeHostname u cache.EndpointUrl).Host ++ ":8000".toList },
             Proxy := env.IsProxyEnabled } ::
           if (env.IsProxyEnabled && env.CanDisableProxy) = true then
             [{ Url := { assumeHostname u cache.EndpointUrl with
                  Scheme := "http".toList
                  Host :=
                    if env.HasPort (assumeHostname u cache.EndpointUrl).Host = true then
                      (assumeHostname u cache.EndpointUrl).Host
                    else (assumeHostname u cache.EndpointUrl).Host ++ ":8000".toList },
                Proxy := false }]
           else []) := by
  unfold NewTransferDetailsUsingDirector
  simp only [hparse, Bool.false_eq_true, if_false]
  cases hport : env.HasPort (assumeHostname u cache.EndpointUrl).Host <;>
    cases hproxy : (env.IsProxyEnabled && env.CanDisableProxy) <;>
    simp only [not_true_eq_false, not_false_eq_true, if_false, if_true,
      List.nil_append, List.cons_append, Bool.false_eq_true]

theorem mem_removeSpaces (c : Char) (hc : c ≠ ' ') (s : GoString) :
    c ∈ removeSpaces s ↔ c ∈ s := by
  unfold removeSpaces
  rw [List.mem_filter]
  constructor
  · exact fun h => h.1
  · intro h
    exact ⟨h, by simpa using hc⟩

theorem goIndex_one_of_mem (sep : Char) (s : GoString) (h : sep ∈ s) :
    ∃ k v, goIndex (stringsSplit sep s) 0 = .ok k ∧ goIndex (stringsSplit sep s) 1 = .ok v := by
  have hlen := stringsSplit_length sep s
  have hc : 0 < s.count sep := List.count_pos_iff.mpr h
  match hs : stringsSplit sep s, hlen with
  | k :: v :: _, _ => exact ⟨k, v, rfl, rfl⟩
  | [_], hl =>
    simp only [List.length_singleton] at hl
    omega
  | [], hl =>
    simp only [List.length_nil] at hl
    omega

theorem headerParserLoop_panics (pairs : List GoString) :
    ∀ (m : GoMap), (∃ pair ∈ pairs, '=' ∉ pair) →
      headerParserLoop pairs m = .error (.indexOutOfRange 1 1) := by
  induction pairs with
  | nil =>
    rintro m ⟨pair, hp, -⟩
    simp at hp
  | cons p rest ih =>
    rintro m ⟨pair, hp, hno⟩
    unfold headerParserLoop
    by_cases heq : '=' ∈ p
    · have hrest : ∃ pair ∈ rest, '=' ∉ pair := by
        rcases List.mem_cons.mp hp with rfl | hmem
        · exact absurd heq hno
        · exact ⟨pair, hmem, hno⟩
      obtain ⟨k, v, hk, hv⟩ := goIndex_one_of_mem '=' (removeSpaces p)
        ((mem_removeSpaces '=' (by decide) p).mpr heq)
      simp only [hk, hv]
      exact ih _ hrest
    · have hsplit : stringsSplit '=' (removeSpaces p) = [removeSpaces p] :=
        stringsSplit_of_not_mem _ _ (fun h => heq ((mem_removeSpaces '=' (by decide) p).mp h))
      simp only [hsplit]
      rfl

theorem headerParser_ok_inv (values : GoString) (m : GoMap) (e : Option GoError)
    (h : HeaderParser values = .ok (m, e)) : e = none := by
  unfold HeaderParser at h
  split at h
  · injection h with h
    exact (congrArg Prod.snd h).symm
  · split at h
    · exact absurd h (by simp)
    · injection h with h
      exact (congrArg Prod.snd h).symm

/-- What a returning call of `CreateNSFromDirectorResp` went through: the `Link` header
was parsed, and the error returned is the one of `GetCachesFromDirectorResponse`. -/
theorem createNS_ok_inv (S : SliceSorter) (dirResp : Response) (ns : Namespace)
    (e : Option GoError) (h : (CreateNSFromDirectorResp S dirResp ns).2 = .ok e) :
    ∃ caches, GetCachesFromDirectorResponse S dirResp = .ok (caches, e) ∧
      (CreateNSFromDirectorResp S dirResp ns).1.SortedDirectorCaches = caches := by
  unfold CreateNSFromDirectorResp at h ⊢
  cases h0 : goIndex (dirResp.Header.Values "X-Osdf-Namespace".toList) 0 with
  | error p =>
    simp only [h0] at h
    exact absurd h (by simp)
  | ok v0 =>
    simp only [h0] at h ⊢
    cases h1 : HeaderParser v0 with
    | error p =>
      simp only [h1] at h
      exact absurd h (by simp)
    | ok r =>
      obtain ⟨m, e1⟩ := r
      simp only [h1] at h ⊢
      cases h2 : issuerFromAuthorization dirResp
          { ns with
            Path := m.get "Namespace".toList
            UseTokenOnRead := (ParseBool (m.get "UseTokenOnRead".toList)).1
            ReadHTTPS := (ParseBool (m.get "ReadHTTPS".toList)).1 } with
      | error p =>
        simp only [h2] at h
        exact absurd h (by simp)
      | ok ns1 =>
        simp only [h2] at h ⊢
        cases h3 : GetCachesFromDirectorResponse S dirResp with
        | error p =>
          simp only [h3] at h
          exact absurd h (by simp)
        | ok r =>
          obtain ⟨caches, err⟩ := r
          simp only [h3] at h ⊢
          injection h with h
          subst h
          exact ⟨caches, rfl, rfl⟩

theorem issuerFromAuthorization_absent (dirResp : Response) (ns : Namespace)
    (ha : dirResp.Header.Values "X-Osdf-Authorization".toList = []) :
    issuerFromAuthorization dirResp ns = .ok ns := by
  unfold issuerFromAuthorization
  rw [ha]
  rfl

theorem issuerFromAuthorization_present (dirResp : Response) (ns : Namespace)
    (akvs : List (GoString × GoString)) (arest : List GoString)
    (ha : dirResp.Header.Values "X-Osdf-Authorization".toList = renderPairs akvs :: arest)
    (hplain : ∀ kv ∈ akvs, PlainToken kv.1 ∧ PlainToken kv.2) :
    issuerFromAuthorization dirResp ns =
      .ok { ns with Issuer := (setAll GoMap.empty akvs).get "Issuer".toList } := by
  unfold issuerFromAuthorization
  rw [ha]
  simp only [goIndex, List.get?_cons_zero, List.length_cons,
    headerParser_renderPairs akvs hplain]
  rw [if_pos (Nat.succ_pos _)]

/-- The call on a response whose namespace and `Link` headers are well formed, up to the
statements on the `X-Osdf-Authorization` header. -/
theorem createNS_of_wellFormed (S : SliceSorter) (dirResp : Response) (ns : Namespace)
    (kvs : List (GoString × GoString)) (nsRest : List GoString)
    (link0 : GoString) (linkRest : List GoString) (expected : List (GoString × Int))
    (hns : dirResp.Header.Values "X-Osdf-Namespace".toList = renderPairs kvs :: nsRest)
    (hkvs : WellFormedPairs kvs)
    (hlink : dirResp.Header.Values "Link".toList = link0 :: linkRest)
    (hwf : LinkDescribes link0 expected) (ns0 ns1 : Namespace)
    (h0 : ns0 = { ns with
      Path := (setAll GoMap.empty kvs).get "Namespace".toList
      UseTokenOnRead := (ParseBool ((setAll GoMap.empty kvs).get "UseTokenOnRead".toList)).1
      ReadHTTPS := (ParseBool ((setAll GoMap.empty kvs).get "ReadHTTPS".toList)).1 })
    (h1 : issuerFromAuthorization dirResp ns0 = .ok ns1) :
    (CreateNSFromDirectorResp S dirResp ns).2 = .ok none ∧
      (CreateNSFromDirectorResp S dirResp ns).1.Issuer = ns1.Issuer := by
  have hp := headerParser_renderPairs kvs hkvs.2
  obtain ⟨built, -, -, hg⟩ := getCaches_of_describes S dirResp link0 linkRest expected hlink hwf
  subst h0
  unfold CreateNSFromDirectorResp
  constructor
  · simp only [hns, goIndex, List.get?_cons_zero, hp, hg, h1]
  · simp only [hns, goIndex, List.get?_cons_zero, hp, hg, h1]

theorem segmentShape_of_describes (seg e : GoString) (p : Int)
    (h : SegmentDescribes seg e p) : SegmentShape seg e p := by
  obtain ⟨-, hsemi, hshape⟩ := h
  refine ⟨hsemi, ?_⟩
  rcases hshape with hs | ⟨d, hs, hd⟩
  · exact Or.inl hs
  · refine Or.inr ⟨d, hs, isIntLiteral_no_semicolon d p hd, ?_⟩
    rw [atoi_of_isIntLiteral d p hd]

/-- The token loop on a segment of the shape `<e>` or `<e>;pri=d`. -/
theorem linkTokensLoop_of_shape (seg e : GoString) (p : Int) (h : SegmentShape seg e p) :
    linkTokensLoop (stringsSplit ';' (removeSpaces seg)) [] 0 = .ok (e, p) := by
  obtain ⟨hsemi, hshape⟩ := h
  rcases hshape with ⟨hs, rfl⟩ | ⟨d, hs, hd, rfl⟩
  · rw [hs, stringsSplit_of_not_mem _ _ (by simpa using hsemi)]
    unfold linkTokensLoop
    rw [if_pos (by simp [stringsHasPrefix]), goSlice_bracket]
    rfl
  · have hsplit : stringsSplit ';' (removeSpaces seg) =
        ['<' :: e ++ ">".toList, "pri=".toList ++ d] := by
      rw [hs]
      have : '<' :: e ++ ">;pri=".toList ++ d =
          ('<' :: e ++ ">".toList) ++ ';' :: ("pri=".toList ++ d) := by simp
      rw [this, stringsSplit_append _ _ _ (by simpa using hsemi),
        stringsSplit_of_not_mem _ _ (by simpa using hd)]
    rw [hsplit]
    unfold linkTokensLoop
    rw [if_pos (by simp [stringsHasPrefix]), goSlice_bracket]
    simp only
    unfold linkTokensLoop
    rw [if_neg (by simp [stringsHasPrefix]), if_pos (by simp [stringsHasPrefix]),
      goSliceFrom_pri]
    rfl

/-- The cache built for a segment of the shape `<e>` or `<e>;pri=d`: the second
colon-separated field of `e` is taken for the port, and it has to exist. -/
theorem cacheFromLinks_of_shape (seg e : GoString) (p : Int) (h : SegmentShape seg e p) :
    cacheFromLinks seg =
      match goIndex (stringsSplit ':' e) 1 with
      | .error q => .error q
      | .ok port =>
        .ok { EndpointUrl := e, Priority := p, AuthedReq := decide (port = "8443".toList) } := by
  unfold cacheFromLinks
  simp only [linkTokensLoop_of_shape seg e p h]
  cases goIndex (stringsSplit ':' e) 1 with
  | error q => rfl
  | ok port =>
    simp only
    by_cases h1 : port = "8000".toList
    · subst h1
      rfl
    · by_cases h2 : port = "8443".toList
      · subst h2
        rfl
      · rw [if_neg h1, if_neg h2, decide_eq_false h2]

/-- A returned descriptor was built by `cacheFromLinks` from a segment of the first
`Link` value. -/
theorem getCaches_mem_inv (S : SliceSorter) (resp : Response) (caches : List DirectorCache)
    (err : Option GoError) (h : GetCachesFromDirectorResponse S resp = .ok (caches, err))
    (c : DirectorCache) (hc : c ∈ caches) :
    ∃ link0 seg, goIndex (resp.Header.Values "Link".toList) 0 = .ok link0 ∧
      seg ∈ stringsSplit ',' link0 ∧ cacheFromLinks seg = .ok c := by
  obtain ⟨link0, built, hl, hb, hs, -⟩ := getCaches_ok_inv S resp caches err h
  have hf := (cachesLoop_nil_ok_iff _ _).mp hb
  have hmem : c ∈ built := by
    have := (S.perm priorityLess built).mem_iff (a := c)
    rw [← hs] at this
    exact this.mp hc
  suffices hseg : ∃ seg, seg ∈ stringsSplit ',' link0 ∧ cacheFromLinks seg = .ok c by
    obtain ⟨seg, h1, h2⟩ := hseg
    exact ⟨link0, seg, hl, h1, h2⟩
  clear hb hs h hc hl
  generalize stringsSplit ',' link0 = segs at hf
  induction hf with
  | nil => simp at hmem
  | cons hx _ ih =>
    rcases List.mem_cons.mp hmem with rfl | hm
    · exact ⟨_, List.mem_cons_self _ _, hx⟩
    · obtain ⟨seg, hs1, hs2⟩ := ih hm
      exact ⟨seg, List.mem_cons_of_mem _ hs1, hs2⟩

theorem cachesLoop_error_of_mem (segs : List GoString) (seg : GoString) (q : Panic)
    (hmem : seg ∈ segs) (hseg : cacheFromLinks seg = .error q) :
    ∀ (acc out : List DirectorCache), cachesLoop segs acc ≠ .ok out := by
  intro acc out hok
  obtain ⟨built, hf, -⟩ := (cachesLoop_ok_iff segs acc out).mp hok
  clear hok
  induction hf with
  | nil => simp at hmem
  | cons hx _ ih =>
    rcases List.mem_cons.mp hmem with rfl | hm
    · rw [hseg] at hx
      exact absurd hx (by simp)
    · exact ih hm

theorem head_stringsSplit_cons (sep c : Char) (s : GoString) (hc : c ≠ sep) :
    ∃ w ws, stringsSplit sep (c :: s) = (c :: w) :: ws := by
  unfold stringsSplit
  rw [if_neg hc]
  cases hsp : stringsSplit sep s with
  | nil => exact absurd hsp (stringsSplit_ne_nil sep s)
  | cons w ws => exact ⟨w, ws, rfl⟩

theorem removeSpaces_append (a b : GoString) :
    removeSpaces (a ++ b) = removeSpaces a ++ removeSpaces b := by
  unfold removeSpaces
  exact List.filter_append a b

theorem removeSpaces_cons_of_ne (c : Char) (hc : c ≠ ' ') (s : GoString) :
    removeSpaces (c :: s) = c :: removeSpaces s := by
  unfold removeSpaces
  rw [List.filter_cons, if_pos (by simpa using hc)]

theorem atoi_syntax_zero (d : GoString) (h : (Atoi d).2 = some .errSyntax) :
    (Atoi d).1 = 0 := by
  unfold Atoi at h ⊢
  by_cases hlen : 0 < d.length ∧ d.length < 19
  · rw [if_pos hlen] at h ⊢
    cases d with
    | nil => rfl
    | cons c cs =>
      simp only at h ⊢
      generalize (if c = '-' ∨ c = '+' then cs else c :: cs) = s1 at h ⊢
      by_cases hl : s1.length < 1
      · rw [if_pos hl]
      · rw [if_neg hl] at h ⊢
        cases hf : atoiFastLoop s1 0 with
        | none => rfl
        | some n =>
          rw [hf] at h
          exact absurd h (by simp)
  · rw [if_neg hlen] at h ⊢
    unfold ParseInt at h ⊢
    cases d with
    | nil => rfl
    | cons c cs =>
      simp only at h ⊢
      generalize (if c = '+' ∨ c = '-' then cs else c :: cs) = s1 at h ⊢
      by_cases hs : (ParseUint s1).2 = some .errSyntax
      · rw [if_pos hs]
      · rw [if_neg hs] at h
        split_ifs at h <;> exact absurd h (by simp)

theorem cachesLoop_of_advertises (segs : List GoString) (expected : List (GoString × Int))
    (h : List.Forall₂
      (fun seg d => (∃ host port : GoString, d.1 = host ++ ':' :: port) ∧
        SegmentShape seg d.1 d.2) segs expected) :
    ∃ built, cachesLoop segs [] = .ok built ∧
      built.map (fun c => (c.EndpointUrl, c.Priority)) = expected := by
  suffices hs : ∃ built,
      List.Forall₂ (fun seg c => cacheFromLinks seg = .ok c) segs built ∧
        built.map (fun c => (c.EndpointUrl, c.Priority)) = expected by
    obtain ⟨built, hb, he⟩ := hs
    exact ⟨built, (cachesLoop_nil_ok_iff _ _).mpr hb, he⟩
  induction h with
  | nil => exact ⟨[], List.Forall₂.nil, rfl⟩
  | cons hx _ ih =>
    obtain ⟨built, hb, he⟩ := ih
    obtain ⟨⟨host, port, hhp⟩, hshape⟩ := hx
    obtain ⟨x, hx1⟩ := goIndex_split_one _ host port hhp
    have hc := cacheFromLinks_of_shape _ _ _ hshape
    rw [hx1] at hc
    refine ⟨_ :: built, List.Forall₂.cons hc hb, ?_⟩
    simp [he]

theorem stringsSplit_append_all (sep : Char) (a b : GoString) :
    stringsSplit sep (a ++ sep :: b) = stringsSplit sep a ++ stringsSplit sep b := by
  induction a with
  | nil => simp [stringsSplit]
  | cons c cs ih =>
    by_cases hc : c = sep
    · simp [stringsSplit, hc, ih]
    · have hne := stringsSplit_ne_nil sep cs
      cases hsp : stringsSplit sep cs with
      | nil => exact absurd hsp hne
      | cons w ws =>
        rw [hsp] at ih
        have e1 : stringsSplit sep (c :: (cs ++ sep :: b)) =
            (match stringsSplit sep (cs ++ sep :: b) with
              | [] => [[c]]
              | w :: ws => (c :: w) :: ws) := by
          rw [stringsSplit, if_neg hc]
        have e2 : stringsSplit sep (c :: cs) =
            (match stringsSplit sep cs with
              | [] => [[c]]
              | w :: ws => (c :: w) :: ws) := by
          rw [stringsSplit, if_neg hc]
        rw [List.cons_append, e1, e2, ih, hsp]
        rfl

/-- Appending `; rel=t` to a segment adds the token `rel=t` after its tokens. -/
theorem relAdded_append (seg t : GoString) (ht : ';' ∉ t) :
    RelAdded seg (seg ++ "; rel=".toList ++ t) := by
  refine ⟨stringsSplit ';' (removeSpaces seg), [], removeSpaces t, by simp, ?_⟩
  have h1 : removeSpaces (seg ++ "; rel=".toList ++ t) =
      removeSpaces seg ++ ';' :: ("rel=".toList ++ removeSpaces t) := by
    rw [removeSpaces_append, removeSpaces_append]
    have : removeSpaces "; rel=".toList = ";rel=".toList := by decide
    rw [this]
    simp
  have h2 : ';' ∉ "rel=".toList ++ removeSpaces t := by
    intro hm
    rcases List.mem_append.mp hm with h | h
    · revert h
      decide
    · exact ht ((mem_removeSpaces ';' (by decide) t).mp h)
  rw [h1, stringsSplit_append_all, stringsSplit_of_not_mem _ _ h2]

/-- A token `rel=t` leaves the variables of the token loop as they are. -/
theorem linkTokensLoop_rel (t : GoString) (post : List GoString) :
    ∀ (pre : List GoString) (endpoint : GoString) (pri : Int),
      linkTokensLoop (pre ++ ("rel=".toList ++ t) :: post) endpoint pri =
        linkTokensLoop (pre ++ post) endpoint pri := by
  intro pre
  induction pre with
  | nil =>
    intro endpoint pri
    have h1 : stringsHasPrefix ("rel=".toList ++ t) "<".toList = false := rfl
    have h2 : stringsHasPrefix ("rel=".toList ++ t) "pri".toList = false := rfl
    simp only [List.nil_append]
    rw [linkTokensLoop]
    simp only [h1, h2, Bool.false_eq_true, if_false]
  | cons val pre ih =>
    intro endpoint pri
    simp only [List.cons_append]
    rw [linkTokensLoop, linkTokensLoop]
    split_ifs
    · cases goSlice val 1 ((val.length : Int) - 1) with
      | error q => rfl
      | ok e => exact ih e pri
    · cases goSliceFrom val 4 with
      | error q => rfl
      | ok d => exact ih endpoint (Atoi d).1
    · exact ih endpoint pri

theorem cacheFromLinks_rel (seg seg' : GoString) (h : seg' = seg ∨ RelAdded seg seg') :
    cacheFromLinks seg' = cacheFromLinks seg := by
  rcases h with rfl | ⟨pre, post, t, h1, h2⟩
  · rfl
  · unfold cacheFromLinks
    simp only [h1, h2, linkTokensLoop_rel]

theorem cachesLoop_rel (segs segs' : List GoString)
    (h : List.Forall₂ (fun seg seg' => seg' = seg ∨ RelAdded seg seg') segs segs') :
    ∀ acc : List DirectorCache, cachesLoop segs' acc = cachesLoop segs acc := by
  induction h with
  | nil => intro acc; rfl
  | cons hx _ ih =>
    intro acc
    unfold cachesLoop
    rw [cacheFromLinks_rel _ _ hx]
    cases cacheFromLinks _ with
    | error q => rfl
    | ok c => exact ih _

/-! ## Properties of `GetCachesFromDirectorResponse` -/

/-- C1: whenever `GetCachesFromDirectorResponse` returns, the returned list is in
ascending order of priority: every descriptor's priority is at most the priority of
the descriptor after it. -/
theorem getCaches_sorted (S : SliceSorter) (resp : Response) (caches : List DirectorCache)
    (err : Option GoError) (h : GetCachesFromDirectorResponse S resp = .ok (caches, err)) :
    ∀ (i : Nat) (h1 : i + 1 < caches.length),
      (caches.get ⟨i, Nat.lt_of_succ_lt h1⟩).Priority ≤ (caches.get ⟨i + 1, h1⟩).Priority := by
  obtain ⟨link0, built, -, -, hc, -⟩ := getCaches_ok_inv S resp caches err h
  intro i h1
  have hs := S.sorted priorityLess built priorityLess_strictWeak
  rw [← hc] at hs
  have := List.pairwise_iff_get.mp hs ⟨i, Nat.lt_of_succ_lt h1⟩ ⟨i + 1, h1⟩
    (by simp [Fin.lt_def])
  simpa [priorityLess] using this

theorem getCaches_sorted_witness :
    GetCachesFromDirectorResponse insertionSorter scenarioResp = .ok (scenarioCaches, none) ∧
    ∀ (i : Nat) (h1 : i + 1 < scenarioCaches.length),
      (scenarioCaches.get ⟨i, Nat.lt_of_succ_lt h1⟩).Priority ≤
        (scenarioCaches.get ⟨i + 1, h1⟩).Priority :=
  ⟨rfl, getCaches_sorted insertionSorter scenarioResp scenarioCaches none rfl⟩

/-- C2: for a well-formed `Link` header, whose segments advertise the endpoints and
priorities `expected`, `GetCachesFromDirectorResponse` returns with a nil error one
descriptor per segment: the list is not empty, as long as the list of segments, and
its endpoints and priorities are a permutation of `expected`. The header of the
scenario yields the scenario's list of descriptors. -/
theorem getCaches_wellFormed (S : SliceSorter) (resp : Response) (link0 : GoString)
    (rest : List GoString) (expected : List (GoString × Int))
    (hlink : resp.Header.Values "Link".toList = link0 :: rest)
    (hwf : LinkDescribes link0 expected) :
    (∃ caches, GetCachesFromDirectorResponse S resp = .ok (caches, none) ∧
      caches ≠ [] ∧ caches.length = (stringsSplit ',' link0).length ∧
      (caches.map (fun c => (c.EndpointUrl, c.Priority))).Perm expected) ∧
    GetCachesFromDirectorResponse S scenarioResp = .ok (scenarioCaches, none) := by
  constructor
  · obtain ⟨built, hb, he⟩ := cachesLoop_of_describes _ _ hwf
    have hlen : built.length = (stringsSplit ',' link0).length :=
      ((cachesLoop_nil_ok_iff _ _).mp hb).length_eq.symm
    have hp := S.perm priorityLess built
    refine ⟨S.sort priorityLess built, ?_, ?_, ?_, ?_⟩
    · unfold GetCachesFromDirectorResponse
      simp only [hlink, goIndex, List.get?_cons_zero, hb]
    · intro h0
      have h1 := hp.length_eq
      rw [h0, hlen] at h1
      exact stringsSplit_ne_nil ',' link0 (List.length_eq_zero.mp h1.symm)
    · rw [hp.length_eq, hlen]
    · rw [← he]
      exact hp.map _
  · have h1 : GetCachesFromDirectorResponse S scenarioResp =
        .ok (S.sort priorityLess scenarioCaches.reverse, none) := rfl
    rw [h1]
    have := sort_pair S priorityLess priorityLess_strictWeak
      { EndpointUrl := "cache1.example.org:8443".toList, Priority := 1, AuthedReq := true }
      { EndpointUrl := "cache2.example.org:8000".toList, Priority := 0, AuthedReq := false }
      (by decide)
    exact congrArg (fun l => Except.ok (l, none)) this

theorem getCaches_wellFormed_witness :
    Header.Values scenarioResp.Header "Link".toList = scenarioLink :: [] ∧
    LinkDescribes scenarioLink scenarioExpected ∧
    (∃ caches, GetCachesFromDirectorResponse insertionSorter scenarioResp = .ok (caches, none) ∧
      caches ≠ [] ∧ caches.length = (stringsSplit ',' scenarioLink).length ∧
      (caches.map (fun c => (c.EndpointUrl, c.Priority))).Perm scenarioExpected) :=
  ⟨rfl, scenarioLink_describes,
    (getCaches_wellFormed insertionSorter scenarioResp scenarioLink [] scenarioExpected rfl
      scenarioLink_describes).1⟩

/-- C3: a returned descriptor whose endpoint is `host:8000` (no colon in `host`) has
`AuthedReq = false`, and one whose endpoint is `host:8443` has `AuthedReq = true`. -/
theorem getCaches_authedReq_of_port (S : SliceSorter) (resp : Response)
    (caches : List DirectorCache) (err : Option GoError)
    (h : GetCachesFromDirectorResponse S resp = .ok (caches, err))
    (c : DirectorCache) (hc : c ∈ caches) (host : GoString) (hhost : ':' ∉ host) :
    (c.EndpointUrl = host ++ ":8000".toList → c.AuthedReq = false) ∧
    (c.EndpointUrl = host ++ ":8443".toList → c.AuthedReq = true) := by
  obtain ⟨link0, built, -, hb, hs, -⟩ := getCaches_ok_inv S resp caches err h
  have hf := (cachesLoop_nil_ok_iff _ _).mp hb
  have hmem : c ∈ built := by
    have := (S.perm priorityLess built).mem_iff (a := c)
    rw [← hs] at this
    exact this.mp hc
  obtain ⟨seg, -, hseg⟩ : ∃ seg ∈ stringsSplit ',' link0, cacheFromLinks seg = .ok c := by
    clear hb hs h hc
    generalize stringsSplit ',' link0 = segs at hf
    induction hf with
    | nil => simp at hmem
    | cons hx _ ih =>
      rcases List.mem_cons.mp hmem with rfl | hm
      · exact ⟨_, List.mem_cons_self _ _, hx⟩
      · obtain ⟨seg, hs1, hs2⟩ := ih hm
        exact ⟨seg, List.mem_cons_of_mem _ hs1, hs2⟩
  obtain ⟨port, hp, -, ha, -⟩ := cacheFromLinks_ok_inv seg c hseg
  constructor
  · intro he
    have hsplit : stringsSplit ':' c.EndpointUrl = [host, "8000".toList] := by
      rw [he]
      show stringsSplit ':' (host ++ ':' :: "8000".toList) = _
      rw [stringsSplit_append _ _ _ hhost]
      rfl
    rw [hsplit] at hp
    have : port = "8000".toList := by
      simp [goIndex] at hp
      exact hp.symm
    rw [ha, this]
    decide
  · intro he
    have hsplit : stringsSplit ':' c.EndpointUrl = [host, "8443".toList] := by
      rw [he]
      show stringsSplit ':' (host ++ ':' :: "8443".toList) = _
      rw [stringsSplit_append _ _ _ hhost]
      rfl
    rw [hsplit] at hp
    have : port = "8443".toList := by
      simp [goIndex] at hp
      exact hp.symm
    rw [ha, this]
    decide

theorem getCaches_authedReq_of_port_witness :
    GetCachesFromDirectorResponse insertionSorter scenarioResp = .ok (scenarioCaches, none) ∧
    scenarioAuthedCache ∈ scenarioCaches ∧ ':' ∉ "cache1.example.org".toList ∧
    scenarioAuthedCache.EndpointUrl = "cache1.example.org".toList ++ ":8443".toList ∧
    ((scenarioAuthedCache.EndpointUrl = "cache1.example.org".toList ++ ":8000".toList →
        scenarioAuthedCache.AuthedReq = false) ∧
      (scenarioAuthedCache.EndpointUrl = "cache1.example.org".toList ++ ":8443".toList →
        scenarioAuthedCache.AuthedReq = true)) :=
  ⟨rfl, by decide, by decide, rfl,
    getCaches_authedReq_of_port insertionSorter scenarioResp scenarioCaches none rfl
      scenarioAuthedCache (by decide) "cache1.example.org".toList (by decide)⟩

/-- C4 as stated fails: `tieLink` is well formed and lists `a.org` first and `b.org`
second among its twelve segments of priority 1, and with the `sort.Slice` of Go 1.19 and
later, whatever its pseudo-random generator, the call returns them with `g.org` first and
`b.org` last. -/
theorem getCaches_not_stable :
    LinkDescribes tieLink tieExpected ∧
    cachesLoop (stringsSplit ',' tieLink) [] = .ok tieBuilt ∧
    (∀ next : Nat → Nat, Slice next priorityLess tieBuilt = some tieSorted ∧
      GetCachesFromDirectorResponse (pdqSorter next) tieResp = .ok (tieSorted, none)) ∧
    withPriority 1 tieSorted ≠ withPriority 1 tieBuilt :=
  ⟨tieLink_describes, rfl, fun next => ⟨slice_tieBuilt next, getCaches_tieResp next⟩,
    by decide⟩

/-- C4, amended: for a well-formed `Link` header the call returns, and for every priority
the returned descriptors of that priority are a rearrangement of the descriptors that the
header's segments of that priority give in header order; nothing is said about their
relative order. -/
theorem getCaches_ties_kept (S : SliceSorter) (resp : Response) (link0 : GoString)
    (rest : List GoString) (expected : List (GoString × Int))
    (hlink : resp.Header.Values "Link".toList = link0 :: rest)
    (hwf : LinkDescribes link0 expected) :
    ∃ built caches, cachesLoop (stringsSplit ',' link0) [] = .ok built ∧
      built.map (fun c => (c.EndpointUrl, c.Priority)) = expected ∧
      GetCachesFromDirectorResponse S resp = .ok (caches, none) ∧
      ∀ p, (withPriority p caches).Perm (withPriority p built) := by
  obtain ⟨built, hb, he⟩ := cachesLoop_of_describes _ _ hwf
  refine ⟨built, S.sort priorityLess built, hb, he, ?_, ?_⟩
  · unfold GetCachesFromDirectorResponse
    simp only [hlink, goIndex, List.get?_cons_zero, hb]
  · intro p
    exact (S.perm priorityLess built).filter _

theorem getCaches_ties_kept_witness :
    Header.Values tieResp.Header "Link".toList = tieLink :: [] ∧
    LinkDescribes tieLink tieExpected ∧
    ∃ built caches, cachesLoop (stringsSplit ',' tieLink) [] = .ok built ∧
      built.map (fun c => (c.EndpointUrl, c.Priority)) = tieExpected ∧
      GetCachesFromDirectorResponse insertionSorter tieResp = .ok (caches, none) ∧
      ∀ p, (withPriority p caches).Perm (withPriority p built) :=
  ⟨rfl, tieLink_describes,
    getCaches_ties_kept insertionSorter tieResp tieLink [] tieExpected rfl
      tieLink_describes⟩

/-- C9: a response without a `Link` header, and one whose first `Link` value is the empty
string, make `GetCachesFromDirectorResponse` panic on an index out of range: nothing is
returned, neither an error nor an empty list. -/
theorem getCaches_no_link_panics :
    (∀ (S : SliceSorter) (resp : Response), resp.Header.Values "Link".toList = [] →
      GetCachesFromDirectorResponse S resp = .error (.indexOutOfRange 0 0)) ∧
    (∀ (S : SliceSorter) (resp : Response) (rest : List GoString),
      resp.Header.Values "Link".toList = [] :: rest →
      GetCachesFromDirectorResponse S resp = .error (.indexOutOfRange 1 1)) ∧
    (∀ S : SliceSorter,
      GetCachesFromDirectorResponse S ⟨[]⟩ = .error (.indexOutOfRange 0 0) ∧
      GetCachesFromDirectorResponse S ⟨[("Link".toList, ["".toList])]⟩ =
        .error (.indexOutOfRange 1 1)) := by
  refine ⟨?_, ?_, fun S => ⟨rfl, rfl⟩⟩
  · intro S resp h
    unfold GetCachesFromDirectorResponse
    simp only [h]
    rfl
  · intro S resp rest h
    unfold GetCachesFromDirectorResponse
    simp only [h]
    rfl

/-- C16: a segment whose bracketed endpoint has no colon makes `cacheFromLinks` panic on
`strings.Split(endpoint, ":")[1]`, and a `Link` header with such a segment makes
`GetCachesFromDirectorResponse` end without returning anything. -/
theorem getCaches_no_port_panics :
    (∀ (seg e : GoString) (p : Int), SegmentShape seg e p → ':' ∉ e →
      cacheFromLinks seg = .error (.indexOutOfRange 1 1)) ∧
    (∀ (S : SliceSorter) (resp : Response) (link0 : GoString) (rest : List GoString)
        (seg e : GoString) (p : Int),
      resp.Header.Values "Link".toList = link0 :: rest → seg ∈ stringsSplit ',' link0 →
      SegmentShape seg e p → ':' ∉ e →
      ∀ r, GetCachesFromDirectorResponse S resp ≠ .ok r) ∧
    (∀ S : SliceSorter,
      GetCachesFromDirectorResponse S ⟨[("Link".toList, [noPortLink])]⟩ =
        .error (.indexOutOfRange 1 1)) := by
  have hseg : ∀ (seg e : GoString) (p : Int), SegmentShape seg e p → ':' ∉ e →
      cacheFromLinks seg = .error (.indexOutOfRange 1 1) := by
    intro seg e p hshape hcolon
    rw [cacheFromLinks_of_shape seg e p hshape, stringsSplit_of_not_mem ':' e hcolon]
    rfl
  refine ⟨hseg, ?_, fun S => rfl⟩
  intro S resp link0 rest seg e p hlink hmem hshape hcolon r hok
  obtain ⟨caches, err⟩ := r
  obtain ⟨l0, built, hl, hb, -, -⟩ := getCaches_ok_inv S resp caches err hok
  rw [hlink] at hl
  have : l0 = link0 := by
    simp only [goIndex, List.get?_cons_zero] at hl
    injection hl with hl
    exact hl.symm
  subst this
  exact cachesLoop_error_of_mem _ seg _ hmem (hseg seg e p hshape hcolon) [] built hb

/-- C17: a returned descriptor whose endpoint is a full URL `scheme://rest` has
`AuthedReq = false` whatever the port of the URL: the text taken for the port is the
second colon-separated field, which starts with `//`. The scenario's cache on port 8443,
advertised as `https://cache1.example.org:8443`, is returned with `AuthedReq = false`. -/
theorem getCaches_full_url_unauthed :
    (∀ (S : SliceSorter) (resp : Response) (caches : List DirectorCache)
        (err : Option GoError) (c : DirectorCache) (scheme rest : GoString),
      GetCachesFromDirectorResponse S resp = .ok (caches, err) → c ∈ caches →
      ':' ∉ scheme → c.EndpointUrl = scheme ++ "://".toList ++ rest →
      c.AuthedReq = false) ∧
    GetCachesFromDirectorResponse insertionSorter ⟨[("Link".toList, [fullUrlLink])]⟩ =
      .ok ([{ EndpointUrl := "https://cache1.example.org:8443".toList, Priority := 0,
              AuthedReq := false }], none) := by
  refine ⟨?_, rfl⟩
  intro S resp caches err c scheme rest hok hc hscheme he
  obtain ⟨link0, seg, -, -, hseg⟩ := getCaches_mem_inv S resp caches err hok c hc
  obtain ⟨port, hp, -, ha, -⟩ := cacheFromLinks_ok_inv seg c hseg
  have hsplit : ∃ w ws, stringsSplit ':' c.EndpointUrl = scheme :: ('/' :: w) :: ws := by
    rw [he]
    have : scheme ++ "://".toList ++ rest = scheme ++ ':' :: ('/' :: '/' :: rest) := by simp
    rw [this, stringsSplit_append _ _ _ hscheme]
    obtain ⟨w, ws, hw⟩ := head_stringsSplit_cons ':' '/' ('/' :: rest) (by decide)
    exact ⟨w, ws, by rw [hw]⟩
  obtain ⟨w, ws, hw⟩ := hsplit
  rw [hw] at hp
  have hport : port = '/' :: w := by
    simp only [goIndex, List.get?_cons_succ, List.get?_cons_zero] at hp
    injection hp with hp
    exact hp.symm
  rw [ha, hport]
  exact decide_eq_false (by simp)

/-- C18: every returned descriptor has the empty string as its `ResourceName`, whatever
its priority: the name is never assigned. The scenario's cache of priority 1 is returned
with an empty `ResourceName`. -/
theorem getCaches_resourceName_empty :
    (∀ (S : SliceSorter) (resp : Response) (caches : List DirectorCache)
        (err : Option GoError) (c : DirectorCache),
      GetCachesFromDirectorResponse S resp = .ok (caches, err) → c ∈ caches →
      c.ResourceName = []) ∧
    GetCachesFromDirectorResponse insertionSorter scenarioResp = .ok (scenarioCaches, none) ∧
    scenarioAuthedCache ∈ scenarioCaches ∧ scenarioAuthedCache.Priority = 1 ∧
    scenarioAuthedCache.ResourceName = [] := by
  refine ⟨?_, rfl, by decide, rfl, rfl⟩
  intro S resp caches err c hok hc
  obtain ⟨link0, seg, -, -, hseg⟩ := getCaches_mem_inv S resp caches err hok c hc
  obtain ⟨port, -, -, -, hr⟩ := cacheFromLinks_ok_inv seg c hseg
  exact hr

/-- C12 as stated fails: the `pri` token of `badPriLink` is not an integer,
`strconv.Atoi` reports a syntax error for it, and `GetCachesFromDirectorResponse`
returns a nil error and a descriptor of priority 0. -/
theorem getCaches_pri_not_integer :
    Atoi "abc".toList = (0, some .errSyntax) ∧
    GetCachesFromDirectorResponse insertionSorter badPriResp =
      .ok ([{ EndpointUrl := "cache1.example.org:8443".toList, Priority := 0,
              AuthedReq := true }], none) :=
  ⟨rfl, rfl⟩

/-- C12, amended: for a `Link` header whose segments are `<host:port>`, followed or not
by a `pri` token with any text, `GetCachesFromDirectorResponse` returns a nil error and
one descriptor per segment; the priority of a segment with a `pri` token is the value
that `strconv.Atoi` returns for its text, the error being discarded, and that value is 0
whenever `Atoi` reports a syntax error. -/
theorem getCaches_pri_any (S : SliceSorter) (resp : Response) (link0 : GoString)
    (rest : List GoString) (expected : List (GoString × Int))
    (hlink : resp.Header.Values "Link".toList = link0 :: rest)
    (hadv : LinkAdvertises link0 expected) :
    (∃ caches, GetCachesFromDirectorResponse S resp = .ok (caches, none) ∧
      caches.length = (stringsSplit ',' link0).length ∧
      (caches.map (fun c => (c.EndpointUrl, c.Priority))).Perm expected) ∧
    (∀ d : GoString, (Atoi d).2 = some .errSyntax → (Atoi d).1 = 0) := by
  refine ⟨?_, atoi_syntax_zero⟩
  obtain ⟨built, hb, he⟩ := cachesLoop_of_advertises _ _ hadv
  have hlen : built.length = (stringsSplit ',' link0).length :=
    ((cachesLoop_nil_ok_iff _ _).mp hb).length_eq.symm
  have hp := S.perm priorityLess built
  refine ⟨S.sort priorityLess built, ?_, ?_, ?_⟩
  · unfold GetCachesFromDirectorResponse
    simp only [hlink, goIndex, List.get?_cons_zero, hb]
  · rw [hp.length_eq, hlen]
  · rw [← he]
    exact hp.map _

theorem getCaches_pri_any_witness :
    Header.Values badPriResp.Header "Link".toList =
      badPriLink :: [] ∧
    LinkAdvertises badPriLink [("cache1.example.org:8443".toList, 0)] ∧
    ((∃ caches, GetCachesFromDirectorResponse insertionSorter badPriResp = .ok (caches, none) ∧
      caches.length = (stringsSplit ',' badPriLink).length ∧
      (caches.map (fun c => (c.EndpointUrl, c.Priority))).Perm
        [("cache1.example.org:8443".toList, 0)]) ∧
    (∀ d : GoString, (Atoi d).2 = some .errSyntax → (Atoi d).1 = 0)) :=
  have hadv : LinkAdvertises badPriLink [("cache1.example.org:8443".toList, 0)] :=
    List.Forall₂.cons
      ⟨⟨"cache1.example.org".toList, "8443".toList, rfl⟩, by decide,
        Or.inr ⟨"abc".toList, rfl, by decide, rfl⟩⟩
      List.Forall₂.nil
  ⟨rfl, hadv,
    getCaches_pri_any insertionSorter badPriResp badPriLink []
      [("cache1.example.org:8443".toList, 0)] rfl hadv⟩

/-- C15: when `rel=t` tokens are added to segments of a well-formed `Link` header,
`GetCachesFromDirectorResponse` still returns with a nil error, and it returns the same
descriptor list as for the header without them. -/
theorem getCaches_rel_ignored (S : SliceSorter) (resp resp' : Response)
    (link link' : GoString) (rest rest' : List GoString) (expected : List (GoString × Int))
    (hl : resp.Header.Values "Link".toList = link :: rest)
    (hl' : resp'.Header.Values "Link".toList = link' :: rest')
    (hwf : LinkDescribes link expected)
    (hrel : List.Forall₂ (fun seg seg' => seg' = seg ∨ RelAdded seg seg')
      (stringsSplit ',' link) (stringsSplit ',' link')) :
    ∃ caches, GetCachesFromDirectorResponse S resp = .ok (caches, none) ∧
      GetCachesFromDirectorResponse S resp' = .ok (caches, none) := by
  obtain ⟨built, -, -, hg⟩ := getCaches_of_describes S resp link rest expected hl hwf
  refine ⟨_, hg, ?_⟩
  rw [← hg]
  unfold GetCachesFromDirectorResponse
  simp only [hl, hl', goIndex, List.get?_cons_zero, cachesLoop_rel _ _ hrel]

theorem getCaches_rel_ignored_witness :
    Header.Values scenarioResp.Header "Link".toList = scenarioLink :: [] ∧
    Header.Values scenarioRelResp.Header "Link".toList = scenarioRelLink :: [] ∧
    LinkDescribes scenarioLink scenarioExpected ∧
    List.Forall₂ (fun seg seg' => seg' = seg ∨ RelAdded seg seg')
      (stringsSplit ',' scenarioLink) (stringsSplit ',' scenarioRelLink) ∧
    GetCachesFromDirectorResponse insertionSorter scenarioRelResp =
      .ok (scenarioCaches, none) ∧
    ∃ caches, GetCachesFromDirectorResponse insertionSorter scenarioResp = .ok (caches, none) ∧
      GetCachesFromDirectorResponse insertionSorter scenarioRelResp = .ok (caches, none) :=
  have hrel : List.Forall₂ (fun seg seg' => seg' = seg ∨ RelAdded seg seg')
      (stringsSplit ',' scenarioLink) (stringsSplit ',' scenarioRelLink) :=
    List.Forall₂.cons
      (Or.inr (relAdded_append "<cache1.example.org:8443>; pri=1".toList "duplicate".toList
        (by decide)))
      (List.Forall₂.cons
        (Or.inr ⟨["<cache2.example.org:8000>".toList], ["pri=0".toList], "duplicate".toList,
          rfl, rfl⟩)
        List.Forall₂.nil)
  ⟨rfl, rfl, scenarioLink_describes, hrel, rfl,
    getCaches_rel_ignored insertionSorter scenarioResp scenarioRelResp scenarioLink
      scenarioRelLink [] [] scenarioExpected rfl rfl scenarioLink_describes hrel⟩

/-! ## Properties of `HeaderParser` -/

/-- C5: for the string `K1=V1,...,Kn=Vn` of a well-formed pair list, `HeaderParser`
returns a nil error and a map whose keys are exactly `K1..Kn`, with `Vi` stored under
`Ki`; the empty string yields the empty map and a nil error. -/
theorem headerParser_wellFormed (kvs : List (GoString × GoString))
    (hwf : WellFormedPairs kvs) :
    (∃ m, HeaderParser (renderPairs kvs) = .ok (m, none) ∧
      (∀ k, k ∈ m.keys ↔ k ∈ kvs.map Prod.fst) ∧
      (∀ kv ∈ kvs, m.find? kv.1 = some kv.2 ∧ m.get kv.1 = kv.2)) ∧
    HeaderParser [] = .ok (GoMap.empty, none) := by
  refine ⟨⟨setAll GoMap.empty kvs, headerParser_renderPairs kvs hwf.2, ?_, ?_⟩, rfl⟩
  · intro k
    rw [keys_setAll]
    simp [GoMap.keys, GoMap.empty]
  · intro kv hkv
    have := find?_setAll_of_mem kvs GoMap.empty hwf.1 kv hkv
    exact ⟨this, by simp [GoMap.get, this]⟩

theorem headerParser_wellFormed_witness :
    WellFormedPairs [("Namespace".toList, "/foo/bar".toList),
      ("UseTokenOnRead".toList, "true".toList), ("ReadHTTPS".toList, "false".toList)] ∧
    renderPairs [("Namespace".toList, "/foo/bar".toList),
      ("UseTokenOnRead".toList, "true".toList), ("ReadHTTPS".toList, "false".toList)] =
      "Namespace=/foo/bar,UseTokenOnRead=true,ReadHTTPS=false".toList ∧
    ((∃ m, HeaderParser (renderPairs [("Namespace".toList, "/foo/bar".toList),
        ("UseTokenOnRead".toList, "true".toList), ("ReadHTTPS".toList, "false".toList)]) =
          .ok (m, none) ∧
      (∀ k, k ∈ m.keys ↔ k ∈ [("Namespace".toList, "/foo/bar".toList),
        ("UseTokenOnRead".toList, "true".toList),
        ("ReadHTTPS".toList, "false".toList)].map Prod.fst) ∧
      (∀ kv ∈ [("Namespace".toList, "/foo/bar".toList),
        ("UseTokenOnRead".toList, "true".toList), ("ReadHTTPS".toList, "false".toList)],
        m.find? kv.1 = some kv.2 ∧ m.get kv.1 = kv.2)) ∧
    HeaderParser [] = .ok (GoMap.empty, none)) :=
  have hwf : WellFormedPairs [("Namespace".toList, "/foo/bar".toList),
      ("UseTokenOnRead".toList, "true".toList), ("ReadHTTPS".toList, "false".toList)] :=
    ⟨by decide, by decide⟩
  ⟨hwf, rfl, headerParser_wellFormed _ hwf⟩

/-- C10: on a non-empty input in which some comma-separated pair has no equals sign,
`HeaderParser` panics on the index `split[1]`; it returns no error value. -/
theorem headerParser_no_equals_panics :
    (∀ values : GoString, values ≠ [] → (∃ pair ∈ stringsSplit ',' values, '=' ∉ pair) →
      HeaderParser values = .error (.indexOutOfRange 1 1)) ∧
    HeaderParser "Namespace".toList = .error (.indexOutOfRange 1 1) ∧
    HeaderParser "Namespace=/foo,UseTokenOnRead".toList = .error (.indexOutOfRange 1 1) := by
  refine ⟨?_, rfl, rfl⟩
  intro values hne hbad
  unfold HeaderParser
  rw [if_neg hne, headerParserLoop_panics _ _ hbad]

/-- C11: a pair `K=V=W` stores under `K` the text `V` between the first and the second
equals sign, not everything after the first one: what follows the second equals sign is
dropped. `Issuer=https://x.org/?a=b` maps `Issuer` to `https://x.org/?a`. -/
theorem headerParser_second_equals_cut :
    (∀ k v w : GoString, '=' ∉ k → '=' ∉ v → ' ' ∉ k → ' ' ∉ v → ',' ∉ k → ',' ∉ v →
      ',' ∉ w →
      HeaderParser (k ++ '=' :: v ++ '=' :: w) = .ok (GoMap.empty.set k v, none)) ∧
    HeaderParser "Issuer=https://x.org/?a=b".toList =
      .ok (⟨[("Issuer".toList, "https://x.org/?a".toList)]⟩, none) ∧
    GoMap.get ⟨[("Issuer".toList, "https://x.org/?a".toList)]⟩ "Issuer".toList ≠
      "https://x.org/?a=b".toList := by
  refine ⟨?_, rfl, by decide⟩
  intro k v w hk hv hks hvs hkc hvc hwc
  have hne : k ++ '=' :: v ++ '=' :: w ≠ [] := by simp
  have hcomma : ',' ∉ k ++ '=' :: v ++ '=' :: w := by
    simp [hkc, hvc, hwc]
  have hsp : removeSpaces (k ++ '=' :: v ++ '=' :: w) = k ++ '=' :: (v ++ '=' :: removeSpaces w) := by
    rw [List.append_assoc, removeSpaces_append, removeSpaces_of_not_mem k hks,
      List.cons_append, removeSpaces_cons_of_ne '=' (by decide), removeSpaces_append,
      removeSpaces_of_not_mem v hvs, removeSpaces_cons_of_ne '=' (by decide)]
  have hsplit : ∃ ws, stringsSplit '=' (removeSpaces (k ++ '=' :: v ++ '=' :: w)) =
      k :: v :: ws := by
    rw [hsp, stringsSplit_append _ _ _ hk, stringsSplit_append _ _ _ hv]
    exact ⟨_, rfl⟩
  obtain ⟨ws, hws⟩ := hsplit
  unfold HeaderParser
  rw [if_neg hne, stringsSplit_of_not_mem ',' _ hcomma]
  simp only [headerParserLoop, hws, goIndex, List.get?_cons_zero, List.get?_cons_succ]

/-! ## Properties of `CreateNSFromDirectorResp` -/

/-- C8: when the first `X-Osdf-Namespace` value is a well-formed `Key=Value` list and the
`Link` header is well formed, `CreateNSFromDirectorResp` leaves in the namespace: `Path`
the value of key `Namespace`, `UseTokenOnRead` and `ReadHTTPS` the booleans read from
the keys of these names, false for a missing or unparseable value. When moreover the
`X-Osdf-Authorization` header is absent or a plain list, the call returns a nil error. -/
theorem createNS_policy (S : SliceSorter) (dirResp : Response) (ns : Namespace)
    (kvs : List (GoString × GoString)) (nsRest : List GoString)
    (link0 : GoString) (linkRest : List GoString) (expected : List (GoString × Int))
    (hns : dirResp.Header.Values "X-Osdf-Namespace".toList = renderPairs kvs :: nsRest)
    (hkvs : WellFormedPairs kvs)
    (hlink : dirResp.Header.Values "Link".toList = link0 :: linkRest)
    (hwf : LinkDescribes link0 expected) :
    (CreateNSFromDirectorResp S dirResp ns).1.Path =
        (kvs.lookup "Namespace".toList).getD [] ∧
    (CreateNSFromDirectorResp S dirResp ns).1.UseTokenOnRead =
        policyBool (kvs.lookup "UseTokenOnRead".toList) ∧
    (CreateNSFromDirectorResp S dirResp ns).1.ReadHTTPS =
        policyBool (kvs.lookup "ReadHTTPS".toList) ∧
    (AuthorizationAbsentOrPlain dirResp.Header →
      (CreateNSFromDirectorResp S dirResp ns).2 = .ok none) := by
  have hp := headerParser_renderPairs kvs hkvs.2
  have h1 := get_setAll_empty kvs "Namespace".toList hkvs.1
  have h2 := parseBool_get_setAll kvs "UseTokenOnRead".toList hkvs.1
  have h3 := parseBool_get_setAll kvs "ReadHTTPS".toList hkvs.1
  obtain ⟨built, -, -, hg⟩ := getCaches_of_describes S dirResp link0 linkRest expected hlink hwf
  unfold CreateNSFromDirectorResp
  simp only [hns, goIndex, List.get?_cons_zero, hp, hg]
  cases hi : issuerFromAuthorization dirResp
      { ns with
        Path := (setAll GoMap.empty kvs).get "Namespace".toList
        UseTokenOnRead := (ParseBool ((setAll GoMap.empty kvs).get "UseTokenOnRead".toList)).1
        ReadHTTPS := (ParseBool ((setAll GoMap.empty kvs).get "ReadHTTPS".toList)).1 } with
  | error p =>
    refine ⟨h1, h2, h3, ?_⟩
    intro hauth
    exfalso
    obtain ⟨ns1, hns1, -⟩ := issuerFromAuthorization_ok dirResp _ hauth
    rw [hns1] at hi
    exact absurd hi (by simp)
  | ok ns1 =>
    obtain ⟨e1, e2, e3⟩ := issuerFromAuthorization_frame dirResp _ ns1 hi
    exact ⟨e1.trans h1, e2.trans h2, e3.trans h3, fun _ => rfl⟩

theorem createNS_policy_witness :
    Header.Values scenarioNamespaceResp.Header "X-Osdf-Namespace".toList =
      renderPairs scenarioPairs :: [] ∧
    WellFormedPairs scenarioPairs ∧
    Header.Values scenarioNamespaceResp.Header "Link".toList = scenarioLink :: [] ∧
    LinkDescribes scenarioLink scenarioExpected ∧
    CreateNSFromDirectorResp insertionSorter scenarioNamespaceResp {} =
      ({ Path := "/foo/bar".toList, UseTokenOnRead := true, ReadHTTPS := false,
         SortedDirectorCaches := scenarioCaches }, .ok none) ∧
    ((CreateNSFromDirectorResp insertionSorter scenarioNamespaceResp {}).1.Path =
        (scenarioPairs.lookup "Namespace".toList).getD [] ∧
      (CreateNSFromDirectorResp insertionSorter scenarioNamespaceResp {}).1.UseTokenOnRead =
        policyBool (scenarioPairs.lookup "UseTokenOnRead".toList) ∧
      (CreateNSFromDirectorResp insertionSorter scenarioNamespaceResp {}).1.ReadHTTPS =
        policyBool (scenarioPairs.lookup "ReadHTTPS".toList) ∧
      (AuthorizationAbsentOrPlain scenarioNamespaceResp.Header →
        (CreateNSFromDirectorResp insertionSorter scenarioNamespaceResp {}).2 = .ok none)) :=
  have hwf : WellFormedPairs scenarioPairs := ⟨by decide, by decide⟩
  ⟨rfl, hwf, rfl, scenarioLink_describes, rfl,
    createNS_policy insertionSorter scenarioNamespaceResp {} scenarioPairs [] scenarioLink []
      scenarioExpected rfl hwf rfl scenarioLink_describes⟩

/-- C14: on a response whose namespace and `Link` headers are well formed,
`CreateNSFromDirectorResp` returns a nil error and leaves `Issuer` as it was on entry
when there is no `X-Osdf-Authorization` header; when the header is present and its first
value is a well-formed `Key=Value` list, the call returns a nil error and `Issuer` is the
value of key `Issuer` in that list (the empty string when the list has no such key). -/
theorem createNS_issuer (S : SliceSorter) (dirResp : Response) (ns : Namespace)
    (kvs : List (GoString × GoString)) (nsRest : List GoString)
    (link0 : GoString) (linkRest : List GoString) (expected : List (GoString × Int))
    (hns : dirResp.Header.Values "X-Osdf-Namespace".toList = renderPairs kvs :: nsRest)
    (hkvs : WellFormedPairs kvs)
    (hlink : dirResp.Header.Values "Link".toList = link0 :: linkRest)
    (hwf : LinkDescribes link0 expected) :
    (dirResp.Header.Values "X-Osdf-Authorization".toList = [] →
      (CreateNSFromDirectorResp S dirResp ns).2 = .ok none ∧
      (CreateNSFromDirectorResp S dirResp ns).1.Issuer = ns.Issuer) ∧
    (∀ (akvs : List (GoString × GoString)) (arest : List GoString),
      dirResp.Header.Values "X-Osdf-Authorization".toList = renderPairs akvs :: arest →
      WellFormedPairs akvs →
      (CreateNSFromDirectorResp S dirResp ns).2 = .ok none ∧
      (CreateNSFromDirectorResp S dirResp ns).1.Issuer =
        (akvs.lookup "Issuer".toList).getD []) := by
  constructor
  · intro ha
    have := createNS_of_wellFormed S dirResp ns kvs nsRest link0 linkRest expected hns hkvs
      hlink hwf _ _ rfl (issuerFromAuthorization_absent dirResp _ ha)
    exact ⟨this.1, this.2⟩
  · intro akvs arest ha hakvs
    have := createNS_of_wellFormed S dirResp ns kvs nsRest link0 linkRest expected hns hkvs
      hlink hwf _ _ rfl (issuerFromAuthorization_present dirResp _ akvs arest ha hakvs.2)
    refine ⟨this.1, this.2.trans ?_⟩
    exact get_setAll_empty akvs "Issuer".toList hakvs.1

theorem createNS_issuer_witness :
    (Header.Values scenarioNamespaceResp.Header "X-Osdf-Namespace".toList =
        renderPairs scenarioPairs :: [] ∧
      WellFormedPairs scenarioPairs ∧
      Header.Values scenarioNamespaceResp.Header "Link".toList = scenarioLink :: [] ∧
      LinkDescribes scenarioLink scenarioExpected ∧
      Header.Values scenarioNamespaceResp.Header "X-Osdf-Authorization".toList = [] ∧
      (CreateNSFromDirectorResp insertionSorter scenarioNamespaceResp
          { Issuer := "https://old.example.org".toList }).2 = .ok none ∧
      (CreateNSFromDirectorResp insertionSorter scenarioNamespaceResp
          { Issuer := "https://old.example.org".toList }).1.Issuer =
        "https://old.example.org".toList) ∧
    (Header.Values scenarioIssuerResp.Header "X-Osdf-Authorization".toList =
        renderPairs [("Issuer".toList, "https://issuer.example.org".toList)] :: [] ∧
      WellFormedPairs [("Issuer".toList, "https://issuer.example.org".toList)] ∧
      (CreateNSFromDirectorResp insertionSorter scenarioIssuerResp {}).2 = .ok none ∧
      (CreateNSFromDirectorResp insertionSorter scenarioIssuerResp {}).1.Issuer =
        "https://issuer.example.org".toList) :=
  have hwf : WellFormedPairs scenarioPairs := ⟨by decide, by decide⟩
  have hiss : WellFormedPairs [("Issuer".toList, "https://issuer.example.org".toList)] :=
    ⟨by decide, by decide⟩
  ⟨⟨rfl, hwf, rfl, scenarioLink_describes, rfl,
      (createNS_issuer insertionSorter scenarioNamespaceResp
        { Issuer := "https://old.example.org".toList } scenarioPairs [] scenarioLink []
        scenarioExpected rfl hwf rfl scenarioLink_describes).1 rfl⟩,
    ⟨rfl, hiss,
      (createNS_issuer insertionSorter scenarioIssuerResp {} scenarioPairs [] scenarioLink []
        scenarioExpected rfl hwf rfl scenarioLink_describes).2
        [("Issuer".toList, "https://issuer.example.org".toList)] [] rfl hiss⟩⟩

/-- C13: without `X-Osdf-Namespace` header `CreateNSFromDirectorResp` panics on the index
`[0]` and returns nothing. The error of a returning call is the error that
`GetCachesFromDirectorResponse` returned, handed on as it is; a panic of the `Link`
parser ends the call with that panic. -/
theorem createNS_no_namespace_panics :
    (∀ (S : SliceSorter) (dirResp : Response) (ns : Namespace),
      dirResp.Header.Values "X-Osdf-Namespace".toList = [] →
      CreateNSFromDirectorResp S dirResp ns = (ns, .error (.indexOutOfRange 0 0))) ∧
    (∀ (S : SliceSorter) (dirResp : Response) (ns : Namespace) (e : Option GoError),
      (CreateNSFromDirectorResp S dirResp ns).2 = .ok e →
      ∃ caches, GetCachesFromDirectorResponse S dirResp = .ok (caches, e)) ∧
    (∀ (S : SliceSorter) (ns : Namespace),
      CreateNSFromDirectorResp S scenarioResp ns = (ns, .error (.indexOutOfRange 0 0))) ∧
    (∀ S : SliceSorter,
      GetCachesFromDirectorResponse S noLinkResp = .error (.indexOutOfRange 0 0) ∧
      (CreateNSFromDirectorResp S noLinkResp {}).2 = .error (.indexOutOfRange 0 0)) := by
  refine ⟨?_, ?_, fun S ns => rfl, fun S => ⟨rfl, rfl⟩⟩
  · intro S dirResp ns h
    unfold CreateNSFromDirectorResp
    simp only [h]
    rfl
  · intro S dirResp ns e h
    obtain ⟨caches, hg, -⟩ := createNS_ok_inv S dirResp ns e h
    exact ⟨caches, hg⟩

/-! ## Properties of `NewTransferDetailsUsingDirector` -/

/-- C6 as stated fails: the endpoint `127.0.0.1:8443` specifies a port, `url.Parse`
rejects it (its first path segment has a colon and no scheme stands before it), and
`NewTransferDetailsUsingDirector` returns no attempt. -/
theorem newTransferDetails_port_unparsed :
    directEnv.HasPort "127.0.0.1:8443".toList = true ∧
    urlParse "127.0.0.1:8443".toList = .error .firstPathSegmentColon ∧
    NewTransferDetailsUsingDirector directEnv { EndpointUrl := "127.0.0.1:8443".toList } true =
      .ok [] :=
  ⟨rfl, rfl, rfl⟩

/-- C6, amended: on the HTTPS path a bare host name `H` for which `HasPort` reports no
port gives exactly two attempts, `https://H:8444` and then `https://H:8443`, both without
proxy; an endpoint that `url.Parse` accepts and whose host has a port according to
`HasPort` gives exactly one attempt, with that host and port and without proxy. -/
theorem newTransferDetails_https (env : Env) (cache : DirectorCache) :
    (BareHostname cache.EndpointUrl → env.HasPort cache.EndpointUrl = false →
      NewTransferDetailsUsingDirector env cache true =
        .ok [{ Url := { Scheme := "https".toList,
                        Host := cache.EndpointUrl ++ ":8444".toList }, Proxy := false },
             { Url := { Scheme := "https".toList,
                        Host := cache.EndpointUrl ++ ":8443".toList }, Proxy := false }]) ∧
    (∀ u : URL, urlParse cache.EndpointUrl = .ok u →
      env.HasPort (assumeHostname u cache.EndpointUrl).Host = true →
      NewTransferDetailsUsingDirector env cache true =
        .ok [{ Url := { assumeHostname u cache.EndpointUrl with Scheme := "https".toList },
               Proxy := false }]) := by
  constructor
  · intro hb hport
    have hparse := urlParse_bareHostname cache.EndpointUrl hb
    rw [newTransferDetails_https_eq env cache _ hparse]
    have hn : assumeHostname { Path := cache.EndpointUrl } cache.EndpointUrl =
        { Host := cache.EndpointUrl } := by
      unfold assumeHostname
      rw [if_pos rfl]
    rw [hn]
    simp only [hport, Bool.false_eq_true, if_false]
  · intro u hparse hport
    rw [newTransferDetails_https_eq env cache u hparse, if_pos hport]

theorem newTransferDetails_https_witness :
    (BareHostname "host.example.org".toList ∧
      directEnv.HasPort "host.example.org".toList = false ∧
      NewTransferDetailsUsingDirector directEnv { EndpointUrl := "host.example.org".toList }
          true =
        .ok [{ Url := { Scheme := "https".toList, Host := "host.example.org:8444".toList },
               Proxy := false },
             { Url := { Scheme := "https".toList, Host := "host.example.org:8443".toList },
               Proxy := false }]) ∧
    (urlParse "https://cache1.example.org:8443".toList =
        .ok { Scheme := "https".toList, Host := "cache1.example.org:8443".toList } ∧
      directEnv.HasPort "cache1.example.org:8443".toList = true ∧
      NewTransferDetailsUsingDirector directEnv
          { EndpointUrl := "https://cache1.example.org:8443".toList } true =
        .ok [{ Url := { Scheme := "https".toList, Host := "cache1.example.org:8443".toList },
               Proxy := false }]) :=
  ⟨⟨by decide, rfl,
      (newTransferDetails_https directEnv { EndpointUrl := "host.example.org".toList }).1
        (by decide) rfl⟩,
    ⟨rfl, rfl,
      (newTransferDetails_https directEnv
        { EndpointUrl := "https://cache1.example.org:8443".toList }).2
        { Scheme := "https".toList, Host := "cache1.example.org:8443".toList } rfl rfl⟩⟩

/-- C7: on the plaintext path, when the endpoint parses, the first attempt has scheme
`http`, the endpoint's host with `:8000` appended when `HasPort` reports no port, and
`Proxy` equal to `IsProxyEnabled()`; a second attempt exists exactly when
`IsProxyEnabled()` and `CanDisableProxy()` are both true, and it has the same URL and
`Proxy = false`; there is no third attempt. -/
theorem newTransferDetails_plaintext (env : Env) (cache : DirectorCache) (u : URL)
    (hparse : urlParse cache.EndpointUrl = .ok u) :
    ∃ first rest, NewTransferDetailsUsingDirector env cache false = .ok (first :: rest) ∧
      first.Url.Scheme = "http".toList ∧
      first.Url.Host =
        (if env.HasPort (assumeHostname u cache.EndpointUrl).Host = true then
          (assumeHostname u cache.EndpointUrl).Host
        else (assumeHostname u cache.EndpointUrl).Host ++ ":8000".toList) ∧
      first.Proxy = env.IsProxyEnabled ∧
      (rest ≠ [] ↔ env.IsProxyEnabled = true ∧ env.CanDisableProxy = true) ∧
      rest.length ≤ 1 ∧
      ∀ second ∈ rest, second.Url = first.Url ∧ second.Proxy = false := by
  have heq := newTransferDetails_http_eq env cache u hparse
  cases hproxy : (env.IsProxyEnabled && env.CanDisableProxy)
  · simp only [hproxy, Bool.false_eq_true, if_false] at heq
    refine ⟨_, [], heq, rfl, rfl, rfl, ?_, by simp, by simp⟩
    constructor
    · intro h
      exact absurd rfl h
    · rintro ⟨h1, h2⟩
      rw [h1, h2] at hproxy
      exact absurd hproxy (by decide)
  · simp only [hproxy, if_true] at heq
    refine ⟨_, _, heq, rfl, rfl, rfl, ?_, by simp, ?_⟩
    · constructor
      · intro _
        simpa using hproxy
      · intro _
        simp
    · intro second hs
      simp only [List.mem_singleton] at hs
      subst hs
      exact ⟨rfl, rfl⟩

theorem newTransferDetails_plaintext_witness :
    urlParse "host.example.org".toList = .ok { Path := "host.example.org".toList } ∧
    NewTransferDetailsUsingDirector proxyEnv { EndpointUrl := "host.example.org".toList }
        false =
      .ok [{ Url := { Scheme := "http".toList, Host := "host.example.org:8000".toList },
             Proxy := true },
           { Url := { Scheme := "http".toList, Host := "host.example.org:8000".toList },
             Proxy := false }] ∧
    ∃ first rest, NewTransferDetailsUsingDirector proxyEnv
        { EndpointUrl := "host.example.org".toList } false = .ok (first :: rest) ∧
      first.Url.Scheme = "http".toList ∧
      first.Url.Host =
        (if proxyEnv.HasPort (assumeHostname { Path := "host.example.org".toList }
            "host.example.org".toList).Host = true then
          (assumeHostname { Path := "host.example.org".toList } "host.example.org".toList).Host
        else (assumeHostname { Path := "host.example.org".toList }
            "host.example.org".toList).Host ++ ":8000".toList) ∧
      first.Proxy = proxyEnv.IsProxyEnabled ∧
      (rest ≠ [] ↔ proxyEnv.IsProxyEnabled = true ∧ proxyEnv.CanDisableProxy = true) ∧
      rest.length ≤ 1 ∧
      ∀ second ∈ rest, second.Url = first.Url ∧ second.Proxy = false :=
  ⟨rfl, rfl,
    newTransferDetails_plaintext proxyEnv { EndpointUrl := "host.example.org".toList }
      { Path := "host.example.org".toList } rfl⟩

/-- C20: when the endpoint parses as a URL, `NewTransferDetailsUsingDirector` returns one
or two attempts, each with scheme `https` when `https = true` and `http` otherwise,
whatever scheme the endpoint names, and without proxy on the HTTPS path; when the
endpoint does not parse, it returns no attempt. -/
theorem newTransferDetails_shape (env : Env) (cache : DirectorCache) (https : Bool) :
    (∀ u : URL, urlParse cache.EndpointUrl = .ok u →
      ∃ details, NewTransferDetailsUsingDirector env cache https = .ok details ∧
        (details.length = 1 ∨ details.length = 2) ∧
        ∀ d ∈ details,
          d.Url.Scheme = (if https = true then "https".toList else "http".toList) ∧
          (https = true → d.Proxy = false)) ∧
    (∀ e : GoError, urlParse cache.EndpointUrl = .error e →
      NewTransferDetailsUsingDirector env cache https = .ok []) := by
  constructor
  · intro u hparse
    cases https with
    | true =>
      rw [newTransferDetails_https_eq env cache u hparse]
      split
      · refine ⟨_, rfl, Or.inl rfl, ?_⟩
        intro d hd
        simp only [List.mem_singleton] at hd
        subst hd
        exact ⟨rfl, fun _ => rfl⟩
      · refine ⟨_, rfl, Or.inr rfl, ?_⟩
        intro d hd
        simp only [List.mem_cons, List.mem_singleton, List.not_mem_nil, or_false] at hd
        rcases hd with rfl | rfl <;> exact ⟨rfl, fun _ => rfl⟩
    | false =>
      have heq := newTransferDetails_http_eq env cache u hparse
      cases hproxy : (env.IsProxyEnabled && env.CanDisableProxy)
      · simp only [hproxy, Bool.false_eq_true, if_false] at heq
        refine ⟨_, heq, Or.inl rfl, ?_⟩
        intro d hd
        simp only [List.mem_singleton] at hd
        subst hd
        exact ⟨rfl, fun h => absurd h (by decide)⟩
      · simp only [hproxy, if_true] at heq
        refine ⟨_, heq, Or.inr rfl, ?_⟩
        intro d hd
        simp only [List.mem_cons, List.mem_singleton, List.not_mem_nil, or_false] at hd
        rcases hd with rfl | rfl <;> exact ⟨rfl, fun h => absurd h (by decide)⟩
  · intro e hparse
    unfold NewTransferDetailsUsingDirector
    simp only [hparse]

theorem newTransferDetails_shape_witness :
    (urlParse "http://cache1.example.org:8000".toList =
        .ok { Scheme := "http".toList, Host := "cache1.example.org:8000".toList } ∧
      NewTransferDetailsUsingDirector directEnv
          { EndpointUrl := "http://cache1.example.org:8000".toList } true =
        .ok [{ Url := { Scheme := "https".toList, Host := "cache1.example.org:8000".toList },
               Proxy := false }] ∧
      ∃ details, NewTransferDetailsUsingDirector directEnv
          { EndpointUrl := "http://cache1.example.org:8000".toList } true = .ok details ∧
        (details.length = 1 ∨ details.length = 2) ∧
        ∀ d ∈ details,
          d.Url.Scheme = (if true = true then "https".toList else "http".toList) ∧
          (true = true → d.Proxy = false)) ∧
    (urlParse "127.0.0.1:8443".toList = .error .firstPathSegmentColon ∧
      NewTransferDetailsUsingDirector directEnv { EndpointUrl := "127.0.0.1:8443".toList }
        false = .ok []) :=
  ⟨⟨rfl, rfl,
      (newTransferDetails_shape directEnv
        { EndpointUrl := "http://cache1.example.org:8000".toList } true).1
        { Scheme := "http".toList, Host := "cache1.example.org:8000".toList } rfl⟩,
    ⟨rfl,
      (newTransferDetails_shape directEnv { EndpointUrl := "127.0.0.1:8443".toList } false).2
        .firstPathSegmentColon rfl⟩⟩

/-! ## The error results -/

/-- C19: an error that `HeaderParser` or `GetCachesFromDirectorResponse` returns is nil,
on every input, and so is the error that a returning `CreateNSFromDirectorResp` hands
back. -/
theorem returned_error_nil :
    (∀ (values : GoString) (m : GoMap) (e : Option GoError),
      HeaderParser values = .ok (m, e) → e = none) ∧
    (∀ (S : SliceSorter) (resp : Response) (caches : List DirectorCache) (e : Option GoError),
      GetCachesFromDirectorResponse S resp = .ok (caches, e) → e = none) ∧
    (∀ (S : SliceSorter) (dirResp : Response) (ns : Namespace) (e : Option GoError),
      (CreateNSFromDirectorResp S dirResp ns).2 = .ok e → e = none) := by
  refine ⟨headerParser_ok_inv, ?_, ?_⟩
  · intro S resp caches e h
    obtain ⟨_, _, -, -, -, he⟩ := getCaches_ok_inv S resp caches e h
    exact he
  · intro S dirResp ns e h
    obtain ⟨caches, hg, -⟩ := createNS_ok_inv S dirResp ns e h
    obtain ⟨_, _, -, -, -, he⟩ := getCaches_ok_inv S dirResp caches e hg
    exact he

theorem returned_error_nil_witness :
    (HeaderParser (renderPairs scenarioPairs) = .ok (setAll GoMap.empty scenarioPairs, none) ∧
      (none : Option GoError) = none) ∧
    (GetCachesFromDirectorResponse insertionSorter scenarioResp = .ok (scenarioCaches, none) ∧
      (none : Option GoError) = none) ∧
    ((CreateNSFromDirectorResp insertionSorter scenarioNamespaceResp {}).2 = .ok none ∧
      (none : Option GoError) = none) :=
  ⟨⟨rfl, returned_error_nil.1 (renderPairs scenarioPairs) (setAll GoMap.empty scenarioPairs)
      none rfl⟩,
    ⟨rfl, returned_error_nil.2.1 insertionSorter scenarioResp scenarioCaches none rfl⟩,
    ⟨rfl, returned_error_nil.2.2 insertionSorter scenarioNamespaceResp {} none rfl⟩⟩

end Stashcp
